import Mathlib

/-!
Decimal rendering of `mpfr_float_imp` (boost/multiprecision/mpfr.hpp).

A shallow embedding of `mpfr_float_imp::str` and of the parts of the MPFR
interface it reads, followed by theorems about the digit string and exponent
that `str` hands to `format_float_string`.  The integer conversions, the
precision bookkeeping of `mpfr_float_backend<0>`, the `numeric_limits`
constants and the `long` overloads of `eval_add` and `eval_subtract` of the
same header are embedded after it.

Conventions of the embedding.

* A `char*` returned by `mpfr_get_str` is a `List Char`: the characters before
  the terminating NUL.  Reading at the index of the terminator gives NUL.
* `std::streamsize` and `mp_exp_t` are `Int`; `static_cast<std::size_t>` is
  reduction modulo `2 ^ 64`.
* `mpfr_get_str` and `format_float_string` are not part of this header; both
  are parameters of the embedding.  `mpfr_get_str m n` stands for
  `mpfr_get_str(0, &e, 10, n, m, GMP_RNDN)` and returns the digit string
  together with the value stored in `e`.  With a null buffer argument and
  base ten the call never returns a null pointer, so the `"0"` arm of
  `ps ? ps : "0"` is unreachable and the engine has no null result.
* The `while` loop of `str` is run with fuel; `none` means the fuel ran out.
-/

namespace MpfrStr

/-! ## Data model -/

/-- The bits of `std::ios_base::fmtflags` that `str` reads, and all other bits. -/
structure fmtflags where
  scientific : Bool
  fixed : Bool
  showpos : Bool
  rest : Nat
deriving DecidableEq, Repr

/-- An MPFR number: NaN, an infinity, a signed zero, or a regular number
`(-1)^neg * mant * 2^exp` with a positive significand. -/
inductive mpfr_t where
  | nan (neg : Bool)
  | inf (neg : Bool)
  | zero (neg : Bool)
  | regular (neg : Bool) (mant : ℕ+) (exp : Int)
deriving DecidableEq

/-- The rational value of a number (0 for NaN and the infinities). -/
def mpfr_t.value : mpfr_t → ℚ
  | .regular neg mant exp => (if neg then -1 else 1) * (mant : ℚ) * (2 : ℚ) ^ exp
  | _ => 0

/-- MPFR `mpfr_inf_p`. -/
def mpfr_inf_p : mpfr_t → Bool
  | .inf _ => true
  | _ => false

/-- MPFR `mpfr_nan_p`. -/
def mpfr_nan_p : mpfr_t → Bool
  | .nan _ => true
  | _ => false

/-- MPFR `mpfr_zero_p`. -/
def mpfr_zero_p : mpfr_t → Bool
  | .zero _ => true
  | _ => false

/-- MPFR `mpfr_sgn`: negative, zero or positive as the number is; 0 for NaN. -/
def mpfr_sgn : mpfr_t → Int
  | .nan _ => 0
  | .zero _ => 0
  | .inf neg => if neg then -1 else 1
  | .regular neg _ _ => if neg then -1 else 1

/-- The terminator of a C string. -/
def NUL : Char := Char.ofNat 0

/-- Read `ps[i]` from a NUL-terminated buffer. -/
def cstr_at (ps : List Char) (i : Nat) : Char := ps.getD i NUL

/-- The two stores `ps[offset] = c; ps[offset + 1] = 0;`: the C string is cut
after position `offset`, which now holds `c`. -/
def cstr_store (ps : List Char) (offset : Nat) (c : Char) : List Char :=
  ps.take offset ++ [c]

/-- The conversion `static_cast<std::size_t>(digits)` of a `std::streamsize`. -/
def size_t_cast (digits : Int) : Nat := (digits % 2 ^ 64).toNat

/-- What `str` has computed when it returns or calls the formatter. -/
inductive Rendering where
  | token (result : String)
  | formatted (result : String) (e : Int) (org_digits : Int) (f : fmtflags) (iszero : Bool)
deriving DecidableEq

/-! ## The code of `str` -/

/-- The loop at lines 227-234,
`while(ps[i] != 0) { if(ps[i] != '0') { round_up = true; break; } }`,
returning the final `round_up`.  The body does not change `i`. -/
def round_up_scan (ps : List Char) (i : Nat) : Nat → Option Bool
  | 0 => none
  | fuel + 1 =>
    if cstr_at ps i ≠ NUL then
      if cstr_at ps i ≠ '0' then some true
      else round_up_scan ps i fuel
    else some false

/-- Lines 167-270 of `str`: everything up to the call of the formatter.  The
result lists the digit counts passed to `mpfr_get_str`, in call order, and
what `str` returns directly or passes to `format_float_string`. -/
def str_body (mpfr_get_str : mpfr_t → Nat → List Char × Int) (m_data : mpfr_t)
    (digits : Int) (f : fmtflags) (fuel : Nat) : Option (List Nat × Rendering) :=
  let scientific := f.scientific
  let fixed := f.fixed
  let org_digits := digits
  let digits := if scientific && digits != 0 then digits + 1 else digits
  if mpfr_inf_p m_data then
    if mpfr_sgn m_data < 0 then some ([], .token "-inf")
    else if f.showpos then some ([], .token "+inf")
    else some ([], .token "inf")
  else if mpfr_nan_p m_data then some ([], .token "nan")
  else if mpfr_zero_p m_data then
    some ([], .formatted "0" 0 org_digits f (mpfr_zero_p m_data))
  else
    let n₁ := size_t_cast digits
    let ps := (mpfr_get_str m_data n₁).1
    let e := (mpfr_get_str m_data n₁).2 - 1
    if fixed && e != -1 then
      let digits := digits + (e + 1)
      if digits == 0 then
        let ps := (mpfr_get_str m_data 0).1
        let e := (mpfr_get_str m_data 0).2 - 1
        let offset := if cstr_at ps 0 = '-' then 1 else 0
        if cstr_at ps offset > '5' then
          some ([n₁, 0], .formatted ⟨cstr_store ps offset '1'⟩ (e + 1) org_digits f
            (mpfr_zero_p m_data))
        else if cstr_at ps offset = '5' then
          match round_up_scan ps (offset + 1) fuel with
          | none => none
          | some true =>
            some ([n₁, 0], .formatted ⟨cstr_store ps offset '1'⟩ (e + 1) org_digits f
              (mpfr_zero_p m_data))
          | some false =>
            some ([n₁, 0], .formatted ⟨cstr_store ps offset '0'⟩ e org_digits f
              (mpfr_zero_p m_data))
        else
          some ([n₁, 0], .formatted ⟨cstr_store ps offset '0'⟩ e org_digits f
            (mpfr_zero_p m_data))
      else if digits > 0 then
        let n₂ := size_t_cast digits
        let ps := (mpfr_get_str m_data n₂).1
        let e := (mpfr_get_str m_data n₂).2 - 1
        some ([n₁, n₂], .formatted ⟨ps⟩ e org_digits f (mpfr_zero_p m_data))
      else
        let ps := (mpfr_get_str m_data 1).1
        let e := (mpfr_get_str m_data 1).2 - 1
        let offset := if cstr_at ps 0 = '-' then 1 else 0
        some ([n₁, 1], .formatted ⟨cstr_store ps offset '0'⟩ e org_digits f
          (mpfr_zero_p m_data))
    else
      some ([n₁], .formatted ⟨ps⟩ e org_digits f (mpfr_zero_p m_data))

/-- The member function `str`: `str_body`, then `format_float_string` on the
digit string, exponent, original digit count, flags and is-zero flag. -/
def str (mpfr_get_str : mpfr_t → Nat → List Char × Int)
    (format_float_string : String → Int → Int → fmtflags → Bool → String)
    (m_data : mpfr_t) (digits : Int) (f : fmtflags) (fuel : Nat) : Option String :=
  match str_body mpfr_get_str m_data digits f fuel with
  | none => none
  | some (_, .token result) => some result
  | some (_, .formatted result e org_digits f iszero) =>
    some (format_float_string result e org_digits f iszero)

/-- The calls of `mpfr_get_str` that `str` makes, as the list of digit counts
passed, in call order (lines 203, 214, 255, 260).  Every call precedes the
loop of lines 227-234, so the list does not depend on how that loop ends. -/
def str_calls (mpfr_get_str : mpfr_t → Nat → List Char × Int) (m_data : mpfr_t)
    (digits : Int) (f : fmtflags) : List Nat :=
  let scientific := f.scientific
  let fixed := f.fixed
  let digits := if scientific && digits != 0 then digits + 1 else digits
  if mpfr_inf_p m_data then []
  else if mpfr_nan_p m_data then []
  else if mpfr_zero_p m_data then []
  else
    let n₁ := size_t_cast digits
    let e := (mpfr_get_str m_data n₁).2 - 1
    if fixed && e != -1 then
      let digits := digits + (e + 1)
      if digits == 0 then [n₁, 0]
      else if digits > 0 then [n₁, size_t_cast digits]
      else [n₁, 1]
    else [n₁]

/-! ## A reference engine

The contract of `mpfr_get_str` in base ten with `GMP_RNDN`, as a computable
function: `n >= 1` significant digits, rounded to nearest with ties to even;
for `n = 0` the digit count `1 + ceil(prec * log 2 / log 10)` of a number of
`prec` bits.  The exponent returned places the radix point before the first
digit.  It is used to evaluate `str` on concrete numbers; the theorems about
`str` hold for every engine. -/

/-- Round `num / den` to the nearest natural number, ties to even. -/
def round_nearest_even (num den : Nat) : Nat :=
  let q := num / den
  let r := num % den
  if 2 * r < den then q else if den < 2 * r then q + 1 else if q % 2 = 0 then q else q + 1

/-- The least `j >= k` with `b <= a * 10 ^ j`, searched for `fuel` steps. -/
def dec_shift (a b : Nat) : Nat → Nat → Nat
  | 0, k => k
  | fuel + 1, k => if b ≤ a * 10 ^ k then k else dec_shift a b fuel (k + 1)

/-- The decimal exponent `E` of `a / b > 0`: `10 ^ (E - 1) <= a / b < 10 ^ E`. -/
def dec_exponent (a b : Nat) : Int :=
  if b ≤ a then ((Nat.toDigits 10 (a / b)).length : Int)
  else 1 - (dec_shift a b b 0 : Int)

/-- The digit count `mpfr_get_str` uses for `n = 0` at precision `prec`. -/
def ref_ndigits (prec : Nat) : Nat := 1 + dec_shift 1 (2 ^ prec) prec 0

/-- The `n`-digit significand of `a / b`, rounded to nearest even, and its exponent. -/
def ref_round (a b : Nat) (n : Nat) : Nat × Int :=
  let E := dec_exponent a b
  let k : Int := (n : Int) - E
  let s := round_nearest_even (a * 10 ^ k.toNat) (b * 10 ^ (-k).toNat)
  if s = 10 ^ n then (10 ^ (n - 1), E + 1) else (s, E)

/-- Reference `mpfr_get_str(0, &e, 10, n, m, GMP_RNDN)` for numbers of `prec`
bits.  `str` passes only regular numbers to the engine; on NaN, the
infinities and zero the reference returns MPFR's special strings and a lone
zero digit. -/
def ref_get_str (prec : Nat) (m : mpfr_t) (n : Nat) : List Char × Int :=
  match m with
  | .regular neg mant exp =>
    let r := ref_round ((mant : Nat) * 2 ^ exp.toNat) (2 ^ (-exp).toNat)
      (if n = 0 then ref_ndigits prec else n)
    ((if neg then ['-'] else []) ++ Nat.toDigits 10 r.1, r.2)
  | .zero neg => ((if neg then ['-'] else []) ++ ['0'], 0)
  | .inf neg => ((if neg then ['-'] else []) ++ "@Inf@".toList, 0)
  | .nan _ => ("@NaN@".toList, 0)

/-! ## Vocabulary of the statements -/

/-- The normalised exponent `e` after the first extraction (line 204). -/
def first_exponent (mpfr_get_str : mpfr_t → Nat → List Char × Int) (m_data : mpfr_t)
    (digits : Int) : Int :=
  (mpfr_get_str m_data (size_t_cast digits)).2 - 1

/-- The corrected count `digits + e + 1` of line 209. -/
def corrected_count (mpfr_get_str : mpfr_t → Nat → List Char × Int) (m_data : mpfr_t)
    (digits : Int) : Int :=
  digits + (first_exponent mpfr_get_str m_data digits + 1)

/-- The sign character a digit string starts with, if any. -/
def sign_chars (ps : List Char) : List Char :=
  if cstr_at ps 0 = '-' then ['-'] else []

/-- The index of the first significant digit (`offset` in the source). -/
def digit_offset (ps : List Char) : Nat :=
  if cstr_at ps 0 = '-' then 1 else 0

/-- The ten decimal digit characters. -/
def dec_digits : List Char := ['0', '1', '2', '3', '4', '5', '6', '7', '8', '9']

/-- The value of a decimal digit character. -/
def digit_val (c : Char) : Nat := c.toNat - '0'.toNat

/-- The digits `d1 d2 d3 ...` read as the fraction `0.d1d2d3...`. -/
def frac_value : List Char → ℚ
  | [] => 0
  | c :: cs => ((digit_val c : ℚ) + frac_value cs) / 10

/-- The value denoted by a digit string and the exponent handed to the
formatter: the digits read as `d1.d2d3...` times `10 ^ e`, with the sign. -/
def pair_value (result : String) (e : Int) : ℚ :=
  (if cstr_at result.data 0 = '-' then -1 else 1)
    * frac_value (result.data.drop (digit_offset result.data)) * 10 ^ (e + 1)

/-- Fixed mode: the fixed flag alone. -/
def fixed_only : fmtflags := { scientific := false, fixed := true, showpos := false, rest := 0 }

/-- The digit count after `if(scientific && digits) ++digits;` (lines 176-177). -/
def effective_count (f : fmtflags) (digits : Int) : Int :=
  if f.scientific && digits != 0 then digits + 1 else digits

/-- The digits of a digit string: what follows the sign character, if any. -/
def digits_part (ps : List Char) : List Char := ps.drop (digit_offset ps)

/-- General mode: no flag set. -/
def general_flags : fmtflags :=
  { scientific := false, fixed := false, showpos := false, rest := 0 }

/-- Scientific mode: the scientific flag alone. -/
def scientific_only : fmtflags :=
  { scientific := true, fixed := false, showpos := false, rest := 0 }

/-- A rendering with '-' put before the digit string; a token is left as it is. -/
def minus_sign : Rendering → Rendering
  | .token result => .token result
  | .formatted result e org_digits f iszero => .formatted ⟨'-' :: result.data⟩ e org_digits f iszero

/-! ## Integer conversions (lines 841-878)

`eval_convert_to` throws or stores into `*result`: the embedding returns the
message of the exception or the stored value.  The MPFR conversion
(`mpfr_get_ui`, `mpfr_get_si`, `mpfr_get_uj`, `mpfr_get_sj`) is a parameter. -/

/-- The overload `eval_convert_to(unsigned long* result, val)`, lines 841-849. -/
def eval_convert_to_ulong (mpfr_get_ui : mpfr_t → Int) (val : mpfr_t) : Except String Int :=
  if mpfr_nan_p val then .error "Could not convert NaN to integer."
  else .ok (mpfr_get_ui val)

/-- The overload `eval_convert_to(long* result, val)`, lines 850-858. -/
def eval_convert_to_long (mpfr_get_si : mpfr_t → Int) (val : mpfr_t) : Except String Int :=
  if mpfr_nan_p val then .error "Could not convert NaN to integer."
  else .ok (mpfr_get_si val)

/-- The overload `eval_convert_to(unsigned long long* result, val)`, lines 860-868. -/
def eval_convert_to_ulonglong (mpfr_get_uj : mpfr_t → Int) (val : mpfr_t) :
    Except String Int :=
  if mpfr_nan_p val then .error "Could not convert NaN to integer."
  else .ok (mpfr_get_uj val)

/-- The overload `eval_convert_to(long long* result, val)`, lines 869-877. -/
def eval_convert_to_longlong (mpfr_get_sj : mpfr_t → Int) (val : mpfr_t) :
    Except String Int :=
  if mpfr_nan_p val then .error "Could not convert NaN to integer."
  else .ok (mpfr_get_sj val)

/-- Reference MPFR integer conversion to a C type with range `lo .. hi`,
rounding to nearest: 0 for NaN, the end of the range on the side of the
overflow for an infinity or a number out of range. -/
def ref_get_int (lo hi : Int) : mpfr_t → Int
  | .nan _ => 0
  | .zero _ => 0
  | .inf neg => if neg then lo else hi
  | .regular neg mant exp =>
    let r : Int := round_nearest_even ((mant : Nat) * 2 ^ exp.toNat) (2 ^ (-exp).toNat)
    let v : Int := if neg then -r else r
    if v < lo then lo else if hi < v then hi else v

/-! ## Precision of `mpfr_float_backend<0>` (lines 486-490, 578-593) -/

/-- An MPFR variable: its precision in bits and its value. -/
structure mpfr_var where
  prec : Nat
  val : mpfr_t
deriving DecidableEq

/-- MPFR `mpfr_init2`: a variable of the given precision, holding NaN. -/
def mpfr_init2 (p : Nat) : mpfr_var := { prec := p, val := .nan false }

/-- MPFR `mpfr_set_prec`: the precision is reset and the value becomes NaN. -/
def mpfr_set_prec (x : mpfr_var) (p : Nat) : mpfr_var := { x with prec := p, val := .nan false }

/-- MPFR `mpfr_get_prec`. -/
def mpfr_get_prec (x : mpfr_var) : Nat := x.prec

/-- Modelled from the spec: `detail::digits10_2_2` of
boost/multiprecision/detail/digits.hpp, which this header includes and which
is not part of it; decimal digits to bits in `unsigned long`, the upstream
definition, which is also the formula of line 1154. -/
def digits10_2_2 (d10 : Nat) : Nat :=
  ((d10 * 1000 % 2 ^ 64) / 301 + (if (d10 * 1000 % 2 ^ 64) % 301 ≠ 0 then 2 else 1)) % 2 ^ 64

/-- Modelled from the spec: `detail::digits2_2_10` of
boost/multiprecision/detail/digits.hpp, which this header includes and which
is not part of it; bits to decimal digits in `unsigned long`, the upstream
definition `(d2 * 301uL) / 1000uL`. -/
def digits2_2_10 (d2 : Nat) : Nat := (d2 * 301 % 2 ^ 64) / 1000

/-- The constructor `mpfr_float_backend(const mpfr_float_backend& o, unsigned digits10)`,
lines 486-490: `mpfr_init2` at `digits10_2_2(digits10)` bits, then assignment
of `o`, whose value `mpfr_set` rounds to that precision. -/
def mpfr_float_backend_with_digits (d10_2_2 : Nat → Nat) (mpfr_set : Nat → mpfr_t → mpfr_t)
    (o : mpfr_var) (digits10 : Nat) : mpfr_var :=
  let x := mpfr_init2 (d10_2_2 digits10)
  { x with val := mpfr_set x.prec o.val }

/-- The getter `unsigned precision() const`, lines 586-589. -/
def precision (d2_2_10 : Nat → Nat) (x : mpfr_var) : Nat :=
  d2_2_10 (mpfr_get_prec x) % 2 ^ 32

/-- The setter `void precision(unsigned digits10)`, lines 590-593. -/
def precision_set (d2_2_10 : Nat → Nat) (x : mpfr_var) (digits10 : Nat) : mpfr_var :=
  mpfr_set_prec x (d2_2_10 digits10)

/-! ## The default precision (lines 36, 318-322, 578-585, 1100-1109) -/

/-- The free function `detail::get_default_precision()`, line 36. -/
def detail_get_default_precision : Int := 50

/-- The process-wide state: the function-local `static unsigned val` of the
member `mpfr_float_imp::get_default_precision()`, lines 318-322. -/
structure default_state where
  val : Nat
deriving DecidableEq

/-- The state at start-up: `static unsigned val = 50;`. -/
def initial_default_state : default_state := { val := 50 }

/-- The getter `static unsigned default_precision()`, lines 578-581. -/
def default_precision (g : default_state) : Nat := g.val

/-- The setter `static void default_precision(unsigned v)`, lines 582-585. -/
def default_precision_set (_g : default_state) (v : Nat) : default_state := { val := v }

/-- The specialisations `boost::math::tools::digits<mpfr_float>()`, lines
1100-1109, run in a given process state: they call the free function. -/
def tools_digits (_g : default_state) : Int := detail_get_default_precision

/-! ## `numeric_limits` (lines 1154-1157) -/

/-- The conversion `static_cast<int>` of a `long`: reduction modulo `2 ^ 32`
into the range of `int`. -/
def int_cast (v : Int) : Int := (v + 2 ^ 31) % 2 ^ 32 - 2 ^ 31

/-- The constant `numeric_limits<...>::digits` of line 1154,
`static_cast<int>((Digits10 * 1000L) / 301L + ((Digits10 * 1000L) % 301 ? 2 : 1))`;
with `Digits10` an `unsigned` the product does not overflow a 64-bit `long`. -/
def numeric_limits_digits (Digits10 : Nat) : Int :=
  int_cast (((Digits10 : Int) * 1000) / 301
    + (if ((Digits10 : Int) * 1000) % 301 ≠ 0 then 2 else 1))

/-- The constant `numeric_limits<...>::max_digits10` of line 1157,
`Digits10 + 2` in `unsigned`, held in an `int`. -/
def numeric_limits_max_digits10 (Digits10 : Nat) : Int :=
  int_cast (((Digits10 + 2) % 2 ^ 32 : Nat) : Int)

/-! ## Addition and subtraction of a `long` (lines 652-667, 695-718, 729-752)

Operands are the rational values of finite numbers; `rnd` is the rounding
`GMP_RNDN` to the precision of the variable written. -/

/-- A value wrapped into the range of a 64-bit `long`. -/
def long_wrap (v : Int) : Int := (v + 2 ^ 63) % 2 ^ 64 - 2 ^ 63

/-- The conversion of a `long` to `unsigned long`. -/
def ulong_of_long (v : Int) : Nat := (v % 2 ^ 64).toNat

/-- MPFR `mpfr_add_ui(a, x, u, GMP_RNDN)`: the value stored in `a`. -/
def mpfr_add_ui (rnd : ℚ → ℚ) (x : ℚ) (u : Nat) : ℚ := rnd (x + u)

/-- MPFR `mpfr_sub_ui(a, x, u, GMP_RNDN)`: the value stored in `a`. -/
def mpfr_sub_ui (rnd : ℚ → ℚ) (x : ℚ) (u : Nat) : ℚ := rnd (x - u)

/-- MPFR `mpfr_ui_sub(a, u, x, GMP_RNDN)`: the value stored in `a`. -/
def mpfr_ui_sub (rnd : ℚ → ℚ) (u : Nat) (x : ℚ) : ℚ := rnd (u - x)

/-- MPFR `mpfr_neg(a, x, GMP_RNDN)`: the value stored in `a`. -/
def mpfr_neg (rnd : ℚ → ℚ) (x : ℚ) : ℚ := rnd (-x)

/-- The overload `eval_add(result, long i)`, lines 652-659. -/
def eval_add_long (rnd : ℚ → ℚ) (result : ℚ) (i : Int) : ℚ :=
  if i > 0 then mpfr_add_ui rnd result (ulong_of_long i)
  else mpfr_sub_ui rnd result (ulong_of_long (long_wrap |i|))

/-- The overload `eval_subtract(result, long i)`, lines 660-667. -/
def eval_subtract_long (rnd : ℚ → ℚ) (result : ℚ) (i : Int) : ℚ :=
  if i > 0 then mpfr_sub_ui rnd result (ulong_of_long i)
  else mpfr_add_ui rnd result (ulong_of_long (long_wrap |i|))

/-- The overload `eval_add(a, x, long y)`, lines 695-702. -/
def eval_add_float_long (rnd : ℚ → ℚ) (x : ℚ) (y : Int) : ℚ :=
  if y < 0 then mpfr_sub_ui rnd x (ulong_of_long (long_wrap (-y)))
  else mpfr_add_ui rnd x (ulong_of_long y)

/-- The overload `eval_add(a, long x, y)`, lines 708-718. -/
def eval_add_long_float (rnd : ℚ → ℚ) (x : Int) (y : ℚ) : ℚ :=
  if x < 0 then
    mpfr_neg rnd (mpfr_ui_sub rnd (ulong_of_long (long_wrap (-x))) y)
  else mpfr_add_ui rnd y (ulong_of_long x)

/-- The overload `eval_subtract(a, x, long y)`, lines 729-736. -/
def eval_subtract_float_long (rnd : ℚ → ℚ) (x : ℚ) (y : Int) : ℚ :=
  if y < 0 then mpfr_add_ui rnd x (ulong_of_long (long_wrap (-y)))
  else mpfr_sub_ui rnd x (ulong_of_long y)

/-- The overload `eval_subtract(a, long x, y)`, lines 742-752. -/
def eval_subtract_long_float (rnd : ℚ → ℚ) (x : Int) (y : ℚ) : ℚ :=
  if x < 0 then
    mpfr_neg rnd (mpfr_add_ui rnd y (ulong_of_long (long_wrap (-x))))
  else mpfr_ui_sub rnd (ulong_of_long x) y

/-! ## Basic facts -/

theorem size_t_cast_of_nonneg (c : Int) (h0 : 0 ≤ c) (h1 : c < 2 ^ 64) :
    size_t_cast c = c.toNat := by
  unfold size_t_cast
  rw [Int.emod_eq_of_lt h0 h1]

theorem cstr_store_sign (ps : List Char) (c : Char) :
    cstr_store ps (digit_offset ps) c = sign_chars ps ++ [c] := by
  unfold cstr_store digit_offset sign_chars
  by_cases h : cstr_at ps 0 = '-'
  · cases ps with
    | nil => exact absurd h (by decide)
    | cons a t =>
      have ha : a = '-' := by simpa [cstr_at] using h
      subst ha
      simp [cstr_at]
  · simp [h]

theorem round_up_scan_stuck (ps : List Char) (i : Nat) (h : cstr_at ps i = '0') :
    ∀ fuel, round_up_scan ps i fuel = none := by
  intro fuel
  induction fuel with
  | zero => rfl
  | succ k ih =>
    have hn : ('0' : Char) ≠ NUL := by decide
    simp [round_up_scan, h, hn, ih]

theorem round_up_scan_end (ps : List Char) (i : Nat) (h : cstr_at ps i = NUL) (fuel : Nat) :
    round_up_scan ps i (fuel + 1) = some false := by
  simp [round_up_scan, h]

theorem round_up_scan_nonzero (ps : List Char) (i : Nat) (h0 : cstr_at ps i ≠ NUL)
    (h1 : cstr_at ps i ≠ '0') (fuel : Nat) :
    round_up_scan ps i (fuel + 1) = some true := by
  simp [round_up_scan, h0, h1]

/-- With the fixed flag set and the scientific flag clear, `str_body` on a
regular number, written over `first_exponent`, `corrected_count` and
`digit_offset`. -/
theorem str_body_fixed (get_str : mpfr_t → Nat → List Char × Int) (neg : Bool) (mant : ℕ+)
    (exp : Int) (digits : Int) (f : fmtflags) (fuel : Nat)
    (hfix : f.fixed = true) (hsci : f.scientific = false) :
    str_body get_str (.regular neg mant exp) digits f fuel =
      if first_exponent get_str (.regular neg mant exp) digits = -1 then
        some ([size_t_cast digits],
          .formatted ⟨(get_str (.regular neg mant exp) (size_t_cast digits)).1⟩
            (first_exponent get_str (.regular neg mant exp) digits) digits f false)
      else if corrected_count get_str (.regular neg mant exp) digits = 0 then
        let ps := (get_str (.regular neg mant exp) 0).1
        let e := (get_str (.regular neg mant exp) 0).2 - 1
        if cstr_at ps (digit_offset ps) > '5' then
          some ([size_t_cast digits, 0],
            .formatted ⟨cstr_store ps (digit_offset ps) '1'⟩ (e + 1) digits f false)
        else if cstr_at ps (digit_offset ps) = '5' then
          match round_up_scan ps (digit_offset ps + 1) fuel with
          | none => none
          | some true =>
            some ([size_t_cast digits, 0],
              .formatted ⟨cstr_store ps (digit_offset ps) '1'⟩ (e + 1) digits f false)
          | some false =>
            some ([size_t_cast digits, 0],
              .formatted ⟨cstr_store ps (digit_offset ps) '0'⟩ e digits f false)
        else
          some ([size_t_cast digits, 0],
            .formatted ⟨cstr_store ps (digit_offset ps) '0'⟩ e digits f false)
      else if 0 < corrected_count get_str (.regular neg mant exp) digits then
        let n₂ := size_t_cast (corrected_count get_str (.regular neg mant exp) digits)
        some ([size_t_cast digits, n₂],
          .formatted ⟨(get_str (.regular neg mant exp) n₂).1⟩
            ((get_str (.regular neg mant exp) n₂).2 - 1) digits f false)
      else
        let ps := (get_str (.regular neg mant exp) 1).1
        some ([size_t_cast digits, 1],
          .formatted ⟨cstr_store ps (digit_offset ps) '0'⟩
            ((get_str (.regular neg mant exp) 1).2 - 1) digits f false) := by
  unfold str_body
  simp only [hfix, hsci, mpfr_inf_p, mpfr_nan_p, mpfr_zero_p, Bool.false_and, Bool.true_and,
    Bool.false_eq_true, if_false, first_exponent, corrected_count, digit_offset]
  by_cases h1 : (get_str (.regular neg mant exp) (size_t_cast digits)).2 - 1 = -1
  · simp [h1]
  · simp only [h1, if_false, bne_iff_ne, ne_eq, not_false_eq_true, if_true, beq_iff_eq,
      gt_iff_lt]

/-- In fixed mode, when the corrected count is 0 and the all-digits string has
'5' and then '0' at its first two significant positions, no amount of fuel
lets the scan of lines 227-234 finish. -/
theorem str_body_stuck (get_str : mpfr_t → Nat → List Char × Int) (neg : Bool) (mant : ℕ+)
    (exp : Int) (digits : Int) (f : fmtflags)
    (hfix : f.fixed = true) (hsci : f.scientific = false)
    (he : first_exponent get_str (.regular neg mant exp) digits ≠ -1)
    (hc : corrected_count get_str (.regular neg mant exp) digits = 0)
    (h5 : cstr_at (get_str (.regular neg mant exp) 0).1
      (digit_offset (get_str (.regular neg mant exp) 0).1) = '5')
    (h0 : cstr_at (get_str (.regular neg mant exp) 0).1
      (digit_offset (get_str (.regular neg mant exp) 0).1 + 1) = '0') (fuel : Nat) :
    str_body get_str (.regular neg mant exp) digits f fuel = none := by
  rw [str_body_fixed get_str neg mant exp digits f fuel hfix hsci]
  have hlt : ¬ ('5' : Char) < '5' := lt_irrefl _
  simp [he, hc, h5, hlt, round_up_scan_stuck _ _ h0 fuel]

/-- When `str_body` runs out of fuel, so does `str`. -/
theorem str_none_of_body (get_str : mpfr_t → Nat → List Char × Int)
    (format_float_string : String → Int → Int → fmtflags → Bool → String)
    (m : mpfr_t) (digits : Int) (f : fmtflags) (fuel : Nat)
    (h : str_body get_str m digits f fuel = none) :
    str get_str format_float_string m digits f fuel = none := by
  unfold str
  rw [h]

/-! ## The fixed-mode correction -/

/-- C3: in fixed mode on a regular number, with `e` the first extraction's
engine exponent minus one and `c = digits + e + 1`: if `e = -1` the first
extraction is handed on unchanged with exponent -1 (one engine call); if
`e != -1` and `c > 0` the result is the engine's extraction at count `c`
with that second extraction's engine exponent minus one (two engine calls,
the first one's string unused). -/
theorem fixed_mode_reextraction (get_str : mpfr_t → Nat → List Char × Int) (neg : Bool)
    (mant : ℕ+) (exp : Int) (digits : Int) (f : fmtflags) (fuel : Nat)
    (hfix : f.fixed = true) (hsci : f.scientific = false) :
    (first_exponent get_str (.regular neg mant exp) digits = -1 →
      str_body get_str (.regular neg mant exp) digits f fuel =
        some ([size_t_cast digits],
          .formatted ⟨(get_str (.regular neg mant exp) (size_t_cast digits)).1⟩ (-1)
            digits f false)) ∧
    (first_exponent get_str (.regular neg mant exp) digits ≠ -1 →
      0 < corrected_count get_str (.regular neg mant exp) digits →
      str_body get_str (.regular neg mant exp) digits f fuel =
        some ([size_t_cast digits,
            size_t_cast (corrected_count get_str (.regular neg mant exp) digits)],
          .formatted
            ⟨(get_str (.regular neg mant exp)
              (size_t_cast (corrected_count get_str (.regular neg mant exp) digits))).1⟩
            ((get_str (.regular neg mant exp)
              (size_t_cast (corrected_count get_str (.regular neg mant exp) digits))).2 - 1)
            digits f false)) := by
  rw [str_body_fixed get_str neg mant exp digits f fuel hfix hsci]
  refine ⟨fun h => ?_, fun h hc => ?_⟩
  · simp [h]
  · have hc0 : corrected_count get_str (.regular neg mant exp) digits ≠ 0 := ne_of_gt hc
    simp [h, hc0, hc]

/-- C4: when the corrected count is 0, `str` extracts again with count 0, and
a first significant digit above '5' gives the single digit 1 (after the sign
character, if any) with exponent (engine exponent - 1) + 1, a first
significant digit below '5' the single digit 0 with exponent
engine exponent - 1. -/
theorem zero_count_first_digit (get_str : mpfr_t → Nat → List Char × Int) (neg : Bool)
    (mant : ℕ+) (exp : Int) (digits : Int) (f : fmtflags) (fuel : Nat)
    (hfix : f.fixed = true) (hsci : f.scientific = false)
    (he : first_exponent get_str (.regular neg mant exp) digits ≠ -1)
    (hc : corrected_count get_str (.regular neg mant exp) digits = 0) :
    ('5' < cstr_at (get_str (.regular neg mant exp) 0).1
        (digit_offset (get_str (.regular neg mant exp) 0).1) →
      str_body get_str (.regular neg mant exp) digits f fuel =
        some ([size_t_cast digits, 0],
          .formatted ⟨sign_chars (get_str (.regular neg mant exp) 0).1 ++ ['1']⟩
            ((get_str (.regular neg mant exp) 0).2 - 1 + 1) digits f false)) ∧
    (cstr_at (get_str (.regular neg mant exp) 0).1
        (digit_offset (get_str (.regular neg mant exp) 0).1) < '5' →
      str_body get_str (.regular neg mant exp) digits f fuel =
        some ([size_t_cast digits, 0],
          .formatted ⟨sign_chars (get_str (.regular neg mant exp) 0).1 ++ ['0']⟩
            ((get_str (.regular neg mant exp) 0).2 - 1) digits f false)) := by
  rw [str_body_fixed get_str neg mant exp digits f fuel hfix hsci]
  refine ⟨fun h => ?_, fun h => ?_⟩
  · simp [he, hc, h, cstr_store_sign]
  · have h1 : ¬ '5' < cstr_at (get_str (.regular neg mant exp) 0).1
        (digit_offset (get_str (.regular neg mant exp) 0).1) := lt_asymm h
    have h2 : cstr_at (get_str (.regular neg mant exp) 0).1
        (digit_offset (get_str (.regular neg mant exp) 0).1) ≠ '5' := ne_of_lt h
    simp [he, hc, h1, h2, cstr_store_sign]

/-- C8: when the corrected count is negative, `str` makes a one-digit
extraction and hands on the single digit 0 behind the sign of the number
("-0" for a negative number, for an engine that marks exactly the negative
numbers with '-'), with that extraction's engine exponent minus one. -/
theorem negative_count_forced_zero (get_str : mpfr_t → Nat → List Char × Int) (neg : Bool)
    (mant : ℕ+) (exp : Int) (digits : Int) (f : fmtflags) (fuel : Nat)
    (hfix : f.fixed = true) (hsci : f.scientific = false)
    (he : first_exponent get_str (.regular neg mant exp) digits ≠ -1)
    (hc : corrected_count get_str (.regular neg mant exp) digits < 0)
    (hsign : cstr_at (get_str (.regular neg mant exp) 1).1 0 = '-' ↔ neg = true) :
    str_body get_str (.regular neg mant exp) digits f fuel =
      some ([size_t_cast digits, 1],
        .formatted (if neg then "-0" else "0")
          ((get_str (.regular neg mant exp) 1).2 - 1) digits f false) := by
  rw [str_body_fixed get_str neg mant exp digits f fuel hfix hsci]
  have hc0 : corrected_count get_str (.regular neg mant exp) digits ≠ 0 := ne_of_lt hc
  have hc1 : ¬ 0 < corrected_count get_str (.regular neg mant exp) digits := not_lt.mpr hc.le
  simp only [he, hc0, hc1, if_false, cstr_store_sign, sign_chars]
  cases neg with
  | true =>
    have h := hsign.mpr rfl
    simp [h]
  | false =>
    have h : ¬ cstr_at (get_str (.regular false mant exp) 1).1 0 = '-' := fun h =>
      Bool.false_ne_true (hsign.mp h)
    simp [h]

/-- Witness of C3: 0.75 at two fixed digits is handed on from the first
extraction ("75", exponent -1); 1234.5 at two fixed digits has `e = 3`,
corrected count 6, and is extracted again as "123450" with exponent 3. -/
theorem fixed_mode_reextraction_witness :
    str_body (ref_get_str 53) (.regular false 3 (-2)) 2 fixed_only 0 =
        some ([2], .formatted "75" (-1) 2 fixed_only false) ∧
      str_body (ref_get_str 53) (.regular false 2469 (-1)) 2 fixed_only 0 =
        some ([2, 6], .formatted "123450" 3 2 fixed_only false) :=
  ⟨(fixed_mode_reextraction (ref_get_str 53) false 3 (-2) 2 fixed_only 0 rfl rfl).1
      (by decide),
    (fixed_mode_reextraction (ref_get_str 53) false 2469 (-1) 2 fixed_only 0 rfl rfl).2
      (by decide) (by decide)⟩

/-- Witness of C4: 7 / 1024 = 0.0068359375 at two fixed digits rounds up to
the digit 1 with exponent -2; 1 / 256 = 0.00390625 rounds down to the digit 0
with exponent -3. -/
theorem zero_count_first_digit_witness :
    str_body (ref_get_str 53) (.regular false 7 (-10)) 2 fixed_only 0 =
        some ([2, 0], .formatted "1" (-2) 2 fixed_only false) ∧
      str_body (ref_get_str 53) (.regular false 1 (-8)) 2 fixed_only 0 =
        some ([2, 0], .formatted "0" (-3) 2 fixed_only false) :=
  ⟨(zero_count_first_digit (ref_get_str 53) false 7 (-10) 2 fixed_only 0 rfl rfl
      (by decide) (by decide)).1 (by decide),
    (zero_count_first_digit (ref_get_str 53) false 1 (-8) 2 fixed_only 0 rfl rfl
      (by decide) (by decide)).2 (by decide)⟩

/-- Witness of C8: -2^-14 = -0.00006103515625 at two fixed digits has
corrected count -2 and is handed on as "-0" with exponent -5. -/
theorem negative_count_forced_zero_witness :
    corrected_count (ref_get_str 53) (.regular true 1 (-14)) 2 < 0 ∧
      str_body (ref_get_str 53) (.regular true 1 (-14)) 2 fixed_only 0 =
        some ([2, 1], .formatted "-0" (-5) 2 fixed_only false) :=
  ⟨by decide,
    negative_count_forced_zero (ref_get_str 53) true 1 (-14) 2 fixed_only 0 rfl rfl
      (by decide) (by decide) (by decide)⟩

/-! ## Where the correction goes wrong -/

/-- C1, the code at a failing input: 2559 / 256 = 9.99609375 at two fixed
digits.  The first extraction rounds to "10" with engine exponent 2, so the
count is corrected to 4; the second extraction is "9996" with engine exponent
1.  The formatter receives four digits with exponent 0, one more than
`digits + e + 1 = 3`: three digits follow the decimal point where two were
requested. -/
theorem fixed_carry_hands_extra_digit (fuel : Nat) :
    ref_get_str 53 (.regular false 2559 (-8)) 2 = (['1', '0'], 2) ∧
      ref_get_str 53 (.regular false 2559 (-8)) 4 = (['9', '9', '9', '6'], 1) ∧
      str_body (ref_get_str 53) (.regular false 2559 (-8)) 2 fixed_only fuel =
        some ([2, 4], .formatted "9996" 0 2 fixed_only false) ∧
      (("9996" : String).length : Int) ≠ 2 + 0 + 1 := by
  refine ⟨by decide, by decide, ?_, by decide⟩
  rw [str_body_fixed (ref_get_str 53) false 2559 (-8) 2 fixed_only fuel rfl rfl,
    if_neg (by decide), if_neg (by decide), if_pos (by decide)]
  decide

/-- C2, the code at a failing input: 165 / 32768 = 0.005035400390625 at two
fixed digits.  The digit 1 with exponent -2 (the decimal 0.01) is within half
a unit of the second decimal place of the number, but `str` hands the
formatter no pair at all: the corrected count is 0, the all-digits string
starts with "50", and the scan of lines 227-234 runs out of every amount of
fuel. -/
theorem fixed_half_unit_no_pair (fuel : Nat) :
    |pair_value "1" (-2) - mpfr_t.value (.regular false 165 (-15))| ≤ 1 / 2 * 10 ^ (-2 : ℤ) ∧
      str_body (ref_get_str 53) (.regular false 165 (-15)) 2 fixed_only fuel = none := by
  constructor
  · have hd : digit_val '1' = 1 := by decide
    have h1 : cstr_at ("1" : String).data 0 ≠ '-' := by decide
    have h2 : digit_offset ("1" : String).data = 0 := by decide
    have h3 : ("1" : String).data = ['1'] := rfl
    rw [pair_value, if_neg h1, h2, h3]
    simp only [List.drop_zero, frac_value, hd, mpfr_t.value]
    rw [abs_le]
    norm_num
  · exact str_body_stuck (ref_get_str 53) false 165 (-15) 2 fixed_only rfl rfl
      (by decide) (by decide) (by decide) (by decide) fuel

/-- C5, what the code does: in fixed mode with corrected count 0, when the
all-digits string has '5' and then '0' at its first two significant positions
(as "5001" has), `str` does not return, whatever digits follow and however
much fuel it is given. -/
theorem five_zero_never_returns (get_str : mpfr_t → Nat → List Char × Int)
    (format_float_string : String → Int → Int → fmtflags → Bool → String)
    (neg : Bool) (mant : ℕ+) (exp : Int) (digits : Int) (f : fmtflags)
    (hfix : f.fixed = true) (hsci : f.scientific = false)
    (he : first_exponent get_str (.regular neg mant exp) digits ≠ -1)
    (hc : corrected_count get_str (.regular neg mant exp) digits = 0)
    (h5 : cstr_at (get_str (.regular neg mant exp) 0).1
      (digit_offset (get_str (.regular neg mant exp) 0).1) = '5')
    (h0 : cstr_at (get_str (.regular neg mant exp) 0).1
      (digit_offset (get_str (.regular neg mant exp) 0).1 + 1) = '0') :
    ∀ fuel, str get_str format_float_string (.regular neg mant exp) digits f fuel = none :=
  fun fuel => str_none_of_body get_str format_float_string _ digits f fuel
    (str_body_stuck get_str neg mant exp digits f hfix hsci he hc h5 h0 fuel)

/-- Witness of C5: 83 / 16384 = 0.00506591796875 at two fixed digits; the
all-digits string is "50659179687500000", with non-zero digits after the
'5'. -/
theorem five_zero_never_returns_witness :
    (ref_get_str 53 (.regular false 83 (-14)) 0).1 = "50659179687500000".toList ∧
      ∀ fuel, str (ref_get_str 53) (fun r _ _ _ _ => r) (.regular false 83 (-14)) 2
        fixed_only fuel = none :=
  ⟨by decide,
    five_zero_never_returns (ref_get_str 53) (fun r _ _ _ _ => r) false 83 (-14) 2 fixed_only
      rfl rfl (by decide) (by decide) (by decide) (by decide)⟩

/-- C6, the code at a failing input: 11 * 2^-41 = 5.0022e-12 held in 5 bits
(the precision of `mpfr_float_backend<1>`) at eleven fixed digits.  The
all-digits string is "500", a '5' followed only by zeros, and `str` does not
return "0": it does not return. -/
theorem tie_string_never_returns
    (format_float_string : String → Int → Int → fmtflags → Bool → String) (fuel : Nat) :
    corrected_count (ref_get_str 5) (.regular false 11 (-41)) 11 = 0 ∧
      (ref_get_str 5 (.regular false 11 (-41)) 0).1 = ['5', '0', '0'] ∧
      str (ref_get_str 5) format_float_string (.regular false 11 (-41)) 11 fixed_only fuel
        = none :=
  ⟨by decide, by decide,
    str_none_of_body _ _ _ _ _ _
      (str_body_stuck (ref_get_str 5) false 11 (-41) 11 fixed_only rfl rfl
        (by decide) (by decide) (by decide) (by decide) fuel)⟩

/-- C9, the code at a failing input: 41 * 2^-13 = 0.0050048828125 at two fixed
digits.  Every extraction is a finite string, yet `str` returns for no amount
of fuel: the scan index is never advanced past the '0' that follows the '5'. -/
theorem str_does_not_terminate
    (format_float_string : String → Int → Int → fmtflags → Bool → String) :
    (ref_get_str 53 (.regular false 41 (-13)) 0).1 = "50048828125000000".toList ∧
      ∀ fuel, str (ref_get_str 53) format_float_string (.regular false 41 (-13)) 2
        fixed_only fuel = none :=
  ⟨by decide, fun fuel =>
    str_none_of_body _ _ _ _ _ _
      (str_body_stuck (ref_get_str 53) false 41 (-13) 2 fixed_only rfl rfl
        (by decide) (by decide) (by decide) (by decide) fuel)⟩

/-! ## The half rule of the corrected-count-0 branch -/

theorem frac_value_nonneg (l : List Char) : 0 ≤ frac_value l := by
  induction l with
  | nil => simp [frac_value]
  | cons c cs ih =>
    simp only [frac_value]
    positivity

theorem digit_val_le_nine (c : Char) (h : c ∈ dec_digits) : digit_val c ≤ 9 := by
  simp only [dec_digits, List.mem_cons, List.mem_singleton, List.not_mem_nil, or_false] at h
  rcases h with h | h | h | h | h | h | h | h | h | h <;> subst h <;> decide

theorem frac_value_le_one (l : List Char) (h : ∀ c ∈ l, c ∈ dec_digits) : frac_value l ≤ 1 := by
  induction l with
  | nil => simp [frac_value]
  | cons c cs ih =>
    have h1 := ih (fun x hx => h x (List.mem_cons_of_mem _ hx))
    have h2 : (digit_val c : ℚ) ≤ 9 := by
      exact_mod_cast digit_val_le_nine c (h c (List.mem_cons_self _ _))
    simp only [frac_value]
    linarith

theorem digit_above_or_below (d : Char) (hd : d ∈ dec_digits) (h5 : d ≠ '5') :
    ('5' < d ∧ 6 ≤ digit_val d) ∨ (¬ '5' < d ∧ digit_val d ≤ 4) := by
  simp only [dec_digits, List.mem_cons, List.mem_singleton, List.not_mem_nil, or_false] at hd
  rcases hd with h | h | h | h | h | h | h | h | h | h <;> subst h <;>
    first | exact absurd rfl h5 | decide

/-- Where the sign and the first two significant positions of a signed digit
string lie. -/
theorem signed_digits_layout (sgn : Bool) (d : Char) (ds : List Char) (hd : d ∈ dec_digits) :
    digit_offset ((if sgn then ['-'] else []) ++ d :: ds) = (if sgn then 1 else 0) ∧
      sign_chars ((if sgn then ['-'] else []) ++ d :: ds) = (if sgn then ['-'] else []) ∧
      cstr_at ((if sgn then ['-'] else []) ++ d :: ds)
        (digit_offset ((if sgn then ['-'] else []) ++ d :: ds)) = d ∧
      cstr_at ((if sgn then ['-'] else []) ++ d :: ds)
        (digit_offset ((if sgn then ['-'] else []) ++ d :: ds) + 1) = cstr_at ds 0 := by
  have hne : d ≠ '-' := by
    simp only [dec_digits, List.mem_cons, List.mem_singleton, List.not_mem_nil, or_false] at hd
    rcases hd with h | h | h | h | h | h | h | h | h | h <;> subst h <;> decide
  cases sgn with
  | true => simp [digit_offset, sign_chars, cstr_at]
  | false => simp [digit_offset, sign_chars, cstr_at, hne]

theorem frac_value_lt_one (l : List Char) (h : ∀ c ∈ l, c ∈ dec_digits) : frac_value l < 1 := by
  induction l with
  | nil => simp [frac_value]
  | cons c cs ih =>
    have h1 := ih (fun x hx => h x (List.mem_cons_of_mem _ hx))
    have h2 : (digit_val c : ℚ) ≤ 9 := by
      exact_mod_cast digit_val_le_nine c (h c (List.mem_cons_self _ _))
    simp only [frac_value]
    linarith

/-- Where the scan of lines 227-234 is not entered or ends at once: in the
corrected-count-0 branch, for a string of decimal digits behind an optional
'-' whose first digit is not '5', or is a '5' directly followed by a non-zero
digit, the result is the digit 1 with the exponent raised by one exactly when
the digits read as the fraction 0.d1d2d3... are at least one half, and the
digit 0 with the exponent unchanged otherwise. -/
theorem zero_count_half_rule (get_str : mpfr_t → Nat → List Char × Int) (neg : Bool)
    (mant : ℕ+) (exp : Int) (digits : Int) (f : fmtflags) (fuel : Nat)
    (hfix : f.fixed = true) (hsci : f.scientific = false)
    (he : first_exponent get_str (.regular neg mant exp) digits ≠ -1)
    (hc : corrected_count get_str (.regular neg mant exp) digits = 0)
    (sgn : Bool) (d : Char) (ds : List Char)
    (hps : (get_str (.regular neg mant exp) 0).1 = (if sgn then ['-'] else []) ++ d :: ds)
    (hd : ∀ c ∈ d :: ds, c ∈ dec_digits)
    (hnext : d = '5' → ds ≠ [] ∧ cstr_at ds 0 ≠ '0') :
    str_body get_str (.regular neg mant exp) digits f (fuel + 1) =
      some ([size_t_cast digits, 0],
        .formatted
          ⟨(if sgn then ['-'] else []) ++ [if 1 / 2 ≤ frac_value (d :: ds) then '1' else '0']⟩
          ((get_str (.regular neg mant exp) 0).2 - 1
            + (if 1 / 2 ≤ frac_value (d :: ds) then 1 else 0))
          digits f false) := by
  have hdd : d ∈ dec_digits := hd d (List.mem_cons_self _ _)
  have hds : ∀ c ∈ ds, c ∈ dec_digits := fun c hc => hd c (List.mem_cons_of_mem _ hc)
  obtain ⟨-, l2, l3, l4⟩ := signed_digits_layout sgn d ds hdd
  have hfr0 := frac_value_nonneg ds
  have hfr1 := frac_value_lt_one ds hds
  rw [str_body_fixed get_str neg mant exp digits f (fuel + 1) hfix hsci]
  simp only [he, hc, if_false, if_true, cstr_store_sign, hps, l2, l3, l4]
  by_cases h5 : d = '5'
  · obtain ⟨hne, hnz⟩ := hnext h5
    subst h5
    have hlt : ¬ ('5' : Char) < '5' := lt_irrefl _
    have hv : digit_val '5' = 5 := by decide
    simp only [hlt, if_false, if_true]
    cases ds with
    | nil => exact absurd rfl hne
    | cons r rs =>
      have hr0 : r ≠ '0' := fun h => hnz (by simpa [cstr_at] using h)
      have hrd : r ∈ dec_digits := hds r (List.mem_cons_self _ _)
      have hrv : 1 ≤ digit_val r ∧ r ≠ NUL := by
        simp only [dec_digits, List.mem_cons, List.mem_singleton, List.not_mem_nil,
          or_false] at hrd
        rcases hrd with h | h | h | h | h | h | h | h | h | h <;> subst h <;>
          first | exact absurd rfl hr0 | decide
      have hs : round_up_scan ((if sgn then ['-'] else []) ++ '5' :: r :: rs)
          (digit_offset ((if sgn then ['-'] else []) ++ '5' :: r :: rs) + 1) (fuel + 1)
          = some true :=
        round_up_scan_nonzero _ _ (by rw [l4]; simpa [cstr_at] using hrv.2)
          (by rw [l4]; simpa [cstr_at] using hr0) fuel
      have hrq : (1 : ℚ) ≤ digit_val r := by exact_mod_cast hrv.1
      have hrs0 := frac_value_nonneg rs
      have hf : (1 : ℚ) / 2 ≤ frac_value ('5' :: r :: rs) := by
        simp only [frac_value, hv]
        push_cast
        linarith
      simp only [hs, hf, if_true]
  · rcases digit_above_or_below d hdd h5 with ⟨hlt, hv⟩ | ⟨hlt, hv⟩
    · have hq : (6 : ℚ) ≤ digit_val d := by exact_mod_cast hv
      have hf : (1 : ℚ) / 2 ≤ frac_value (d :: ds) := by
        simp only [frac_value]
        linarith
      simp only [gt_iff_lt, hlt, hf, if_true]
    · have hq : (digit_val d : ℚ) ≤ 4 := by exact_mod_cast hv
      have hf : ¬ (1 : ℚ) / 2 ≤ frac_value (d :: ds) := by
        simp only [frac_value]
        rw [not_le]
        linarith
      simp only [gt_iff_lt, hlt, h5, hf, if_false, add_zero]

/-- An instance of `zero_count_half_rule`: 45 / 8192 = 0.0054931640625 at two
fixed digits; the all-digits string "54931640625000000" reads as at least one
half and the digit 1 is handed on with exponent -2. -/
theorem zero_count_half_rule_example :
    (ref_get_str 53 (.regular false 45 (-13)) 0).1 = '5' :: "4931640625000000".toList ∧
      str_body (ref_get_str 53) (.regular false 45 (-13)) 2 fixed_only 1 =
        some ([2, 0], .formatted "1" (-2) 2 fixed_only false) := by
  have h := zero_count_half_rule (ref_get_str 53) false 45 (-13) 2 fixed_only 0 rfl rfl
    (by decide) (by decide) false '5' "4931640625000000".toList (by decide) (by decide)
    (fun _ => by decide)
  have h5 : digit_val '5' = 5 := by decide
  have key : ∀ t : List Char, (1 : ℚ) / 2 ≤ frac_value ('5' :: t) := by
    intro t
    have ht := frac_value_nonneg t
    rw [frac_value, h5]
    push_cast
    linarith
  have hf : (1 : ℚ) / 2 ≤ frac_value ('5' :: "4931640625000000".toList) :=
    key "4931640625000000".toList
  rw [if_pos hf, if_pos hf] at h
  exact ⟨by decide, h⟩

/-- C7, the code at a failing input: 657 / 131072 = 0.0050125122... at two
fixed digits.  The corrected count is 0 and the all-digits string
"50125122070312500" reads as the fraction 0.50125..., at least one half, so
the half rule asks for the digit 1; `str` hands on nothing, for the scan of
lines 227-234 stays on the '0' that follows the '5' and uses up every amount
of fuel. -/
theorem half_rule_never_returns (fuel : Nat) :
    corrected_count (ref_get_str 53) (.regular false 657 (-17)) 2 = 0 ∧
      (ref_get_str 53 (.regular false 657 (-17)) 0).1 = "50125122070312500".toList ∧
      (1 : ℚ) / 2 ≤ frac_value "50125122070312500".toList ∧
      str_body (ref_get_str 53) (.regular false 657 (-17)) 2 fixed_only fuel = none := by
  refine ⟨by decide, by decide, ?_, ?_⟩
  · have h5 : digit_val '5' = 5 := by decide
    have ht := frac_value_nonneg "0125122070312500".toList
    show (1 : ℚ) / 2 ≤ frac_value ('5' :: "0125122070312500".toList)
    rw [frac_value, h5]
    push_cast
    linarith
  · exact str_body_stuck (ref_get_str 53) false 657 (-17) 2 fixed_only rfl rfl
      (by decide) (by decide) (by decide) (by decide) fuel

/-! ## Special values -/

/-- C10: for an infinity `str` returns the inf token for every digit count
and every setting of the fixed and scientific flags, with no engine call
and no formatter call: "-inf" when negative, "+inf" when non-negative with
showpos set, "inf" otherwise, whatever the engine and the formatter are. -/
theorem inf_token (get_str : mpfr_t → Nat → List Char × Int)
    (format_float_string : String → Int → Int → fmtflags → Bool → String)
    (neg : Bool) (digits : Int) (f : fmtflags) (fuel : Nat) :
    str_body get_str (.inf neg) digits f fuel =
        some ([], .token (if neg then "-inf" else if f.showpos then "+inf" else "inf")) ∧
      str get_str format_float_string (.inf neg) digits f fuel =
        some (if neg then "-inf" else if f.showpos then "+inf" else "inf") := by
  have h : str_body get_str (.inf neg) digits f fuel =
      some ([], .token (if neg then "-inf" else if f.showpos then "+inf" else "inf")) := by
    unfold str_body
    cases neg <;> cases hs : f.showpos <;> simp [mpfr_inf_p, mpfr_sgn]
  refine ⟨h, ?_⟩
  unfold str
  rw [h]

/-- C11: for a NaN `str` returns exactly "nan", whatever the digit count, the
flags (showpos included) and the sign bit, with no engine call and no
formatter call. -/
theorem nan_token (get_str : mpfr_t → Nat → List Char × Int)
    (format_float_string : String → Int → Int → fmtflags → Bool → String)
    (neg : Bool) (digits : Int) (f : fmtflags) (fuel : Nat) :
    str_body get_str (.nan neg) digits f fuel = some ([], .token "nan") ∧
      str_calls get_str (.nan neg) digits f = [] ∧
      str get_str format_float_string (.nan neg) digits f fuel = some "nan" := by
  have h : str_body get_str (.nan neg) digits f fuel = some ([], .token "nan") := by
    simp [str_body, mpfr_inf_p, mpfr_nan_p]
  refine ⟨h, by simp [str_calls, mpfr_inf_p, mpfr_nan_p], ?_⟩
  unfold str
  rw [h]

/-- C12: for a zero of either sign, every digit count and every mode, the
formatter receives the digit string "0" with exponent 0 (and the is-zero flag
set), and the engine is not called. -/
theorem zero_pair (get_str : mpfr_t → Nat → List Char × Int)
    (format_float_string : String → Int → Int → fmtflags → Bool → String)
    (neg : Bool) (digits : Int) (f : fmtflags) (fuel : Nat) :
    str_body get_str (.zero neg) digits f fuel = some ([], .formatted "0" 0 digits f true) ∧
      str_calls get_str (.zero neg) digits f = [] ∧
      str get_str format_float_string (.zero neg) digits f fuel =
        some (format_float_string "0" 0 digits f true) := by
  have h : str_body get_str (.zero neg) digits f fuel =
      some ([], .formatted "0" 0 digits f true) := by
    simp [str_body, mpfr_inf_p, mpfr_nan_p, mpfr_zero_p]
  refine ⟨h, by simp [str_calls, mpfr_inf_p, mpfr_nan_p, mpfr_zero_p], ?_⟩
  unfold str
  rw [h]

/-! ## General and scientific mode -/

/-- With the fixed flag clear, `str_body` on a regular number makes one
extraction, at the effective count, and hands it on. -/
theorem str_body_unfixed (get_str : mpfr_t → Nat → List Char × Int) (neg : Bool) (mant : ℕ+)
    (exp : Int) (digits : Int) (f : fmtflags) (fuel : Nat) (hfix : f.fixed = false) :
    str_body get_str (.regular neg mant exp) digits f fuel =
      some ([size_t_cast (effective_count f digits)],
        .formatted
          ⟨(get_str (.regular neg mant exp) (size_t_cast (effective_count f digits))).1⟩
          ((get_str (.regular neg mant exp) (size_t_cast (effective_count f digits))).2 - 1)
          digits f false) := by
  unfold str_body
  simp only [hfix, mpfr_inf_p, mpfr_nan_p, mpfr_zero_p, Bool.false_and, Bool.false_eq_true,
    if_false, effective_count]

theorem effective_count_of_pos (f : fmtflags) (digits : Int) (hd : 1 ≤ digits) :
    effective_count f digits = if f.scientific then digits + 1 else digits := by
  have h0 : digits ≠ 0 := by omega
  unfold effective_count
  cases f.scientific <;> simp [h0]

/-- C13: with the fixed flag clear, on a regular number and a digit count
`d >= 1`, `str` hands the formatter the engine's extraction at the effective
count (`d` in general mode, `d + 1` in scientific mode) with the engine
exponent less one, after that single engine call; so when the engine returns
exactly as many digits as asked with a first digit other than '0', the digit
string has exactly `d` (general) or `d + 1` (scientific) digits and its first
digit is not '0'. -/
theorem unfixed_hands_effective_extraction (get_str : mpfr_t → Nat → List Char × Int)
    (neg : Bool) (mant : ℕ+) (exp : Int) (digits : Int) (f : fmtflags) (fuel : Nat)
    (hfix : f.fixed = false) (hd1 : 1 ≤ digits) (hd2 : digits < 2 ^ 63) :
    effective_count f digits = (if f.scientific then digits + 1 else digits) ∧
      str_body get_str (.regular neg mant exp) digits f fuel =
        some ([(effective_count f digits).toNat],
          .formatted ⟨(get_str (.regular neg mant exp) (effective_count f digits).toNat).1⟩
            ((get_str (.regular neg mant exp) (effective_count f digits).toNat).2 - 1)
            digits f false) ∧
      ((digits_part (get_str (.regular neg mant exp) (effective_count f digits).toNat).1).length
          = (effective_count f digits).toNat →
        cstr_at (get_str (.regular neg mant exp) (effective_count f digits).toNat).1
          (digit_offset (get_str (.regular neg mant exp) (effective_count f digits).toNat).1)
          ≠ '0' →
        ∃ r e, str_body get_str (.regular neg mant exp) digits f fuel =
            some ([(effective_count f digits).toNat], .formatted r e digits f false) ∧
          ((digits_part r.data).length : Int) = (if f.scientific then digits + 1 else digits) ∧
          cstr_at r.data (digit_offset r.data) ≠ '0') := by
  have hec := effective_count_of_pos f digits hd1
  have h0 : 0 ≤ effective_count f digits := by
    rw [hec]; split_ifs <;> omega
  have h1 : effective_count f digits < 2 ^ 64 := by
    rw [hec]; split_ifs <;> omega
  have hcast := size_t_cast_of_nonneg _ h0 h1
  have hb := str_body_unfixed get_str neg mant exp digits f fuel hfix
  rw [hcast] at hb
  refine ⟨hec, hb, fun hlen hfirst => ⟨_, _, hb, ?_, hfirst⟩⟩
  show ((digits_part (get_str (.regular neg mant exp) (effective_count f digits).toNat).1).length
    : Int) = _
  rw [hlen, Int.toNat_of_nonneg h0, hec]

/-- Witness of C13: 201 / 64 = 3.140625 at three digits: "314" with exponent 0
in general mode, "3141" with exponent 0 in scientific mode. -/
theorem unfixed_hands_effective_extraction_witness :
    str_body (ref_get_str 53) (.regular false 201 (-6)) 3 general_flags 0 =
        some ([3], .formatted "314" 0 3 general_flags false) ∧
      str_body (ref_get_str 53) (.regular false 201 (-6)) 3 scientific_only 0 =
        some ([4], .formatted "3141" 0 3 scientific_only false) ∧
      ∃ r e, str_body (ref_get_str 53) (.regular false 201 (-6)) 3 scientific_only 0 =
          some ([4], .formatted r e 3 scientific_only false) ∧
        ((digits_part r.data).length : Int) = 3 + 1 ∧
        cstr_at r.data (digit_offset r.data) ≠ '0' :=
  ⟨(unfixed_hands_effective_extraction (ref_get_str 53) false 201 (-6) 3 general_flags 0 rfl
      (by decide) (by decide)).2.1,
    (unfixed_hands_effective_extraction (ref_get_str 53) false 201 (-6) 3 scientific_only 0 rfl
      (by decide) (by decide)).2.1,
    (unfixed_hands_effective_extraction (ref_get_str 53) false 201 (-6) 3 scientific_only 0 rfl
      (by decide) (by decide)).2.2 (by decide) (by decide)⟩

/-! ## Engine calls and the formatter call -/

/-- The call list that `str_body` reports is `str_calls`. -/
theorem str_body_calls (get_str : mpfr_t → Nat → List Char × Int) (m : mpfr_t)
    (digits : Int) (f : fmtflags) (fuel : Nat) (calls : List Nat) (r : Rendering)
    (h : str_body get_str m digits f fuel = some (calls, r)) :
    calls = str_calls get_str m digits f := by
  cases m with
  | nan neg =>
    simp only [str_body, str_calls, mpfr_inf_p, mpfr_nan_p, Bool.false_eq_true, if_false,
      if_true, Option.some.injEq, Prod.mk.injEq] at h ⊢
    exact h.1.symm
  | inf neg =>
    simp only [str_body, str_calls, mpfr_inf_p, if_true] at h ⊢
    split_ifs at h <;>
      (simp only [Option.some.injEq, Prod.mk.injEq] at h; exact h.1.symm)
  | zero neg =>
    simp only [str_body, str_calls, mpfr_inf_p, mpfr_nan_p, mpfr_zero_p, Bool.false_eq_true,
      if_false, if_true, Option.some.injEq, Prod.mk.injEq] at h ⊢
    exact h.1.symm
  | regular neg mant exp =>
    simp only [str_body, str_calls, mpfr_inf_p, mpfr_nan_p, mpfr_zero_p, Bool.false_eq_true,
      if_false] at h ⊢
    generalize (if (f.scientific && digits != 0) = true then digits + 1 else digits) = d at h ⊢
    generalize (get_str (.regular neg mant exp) (size_t_cast d)).2 - 1 = e at h ⊢
    by_cases c1 : (f.fixed && e != -1) = true
    · rw [if_pos c1] at h ⊢
      by_cases c2 : (d + (e + 1) == 0) = true
      · rw [if_pos c2] at h ⊢
        split_ifs at h
        all_goals first
          | (simp only [Option.some.injEq, Prod.mk.injEq] at h; exact h.1.symm)
          | (split at h <;> first
              | (injection h; done)
              | (simp only [Option.some.injEq, Prod.mk.injEq] at h; exact h.1.symm))
      · rw [if_neg c2] at h ⊢
        split_ifs at h ⊢ <;>
          (simp only [Option.some.injEq, Prod.mk.injEq] at h; exact h.1.symm)
    · rw [if_neg c1] at h ⊢
      simp only [Option.some.injEq, Prod.mk.injEq] at h
      exact h.1.symm

/-- On a regular number the first call passes the cast of the effective count;
a second call follows exactly when the fixed flag is set and the normalised
exponent of the first extraction is not -1. -/
theorem str_calls_regular (get_str : mpfr_t → Nat → List Char × Int) (neg : Bool) (mant : ℕ+)
    (exp : Int) (digits : Int) (f : fmtflags) :
    (str_calls get_str (.regular neg mant exp) digits f).head?
        = some (size_t_cast (effective_count f digits)) ∧
      ((f.fixed = false ∨
          first_exponent get_str (.regular neg mant exp) (effective_count f digits) = -1) →
        (str_calls get_str (.regular neg mant exp) digits f).length = 1) ∧
      (f.fixed = true →
        first_exponent get_str (.regular neg mant exp) (effective_count f digits) ≠ -1 →
        (str_calls get_str (.regular neg mant exp) digits f).length = 2) := by
  simp only [str_calls, mpfr_inf_p, mpfr_nan_p, mpfr_zero_p, Bool.false_eq_true, if_false,
    first_exponent, effective_count]
  generalize (if (f.scientific && digits != 0) = true then digits + 1 else digits) = d
  generalize (get_str (.regular neg mant exp) (size_t_cast d)).2 - 1 = e
  refine ⟨?_, ?_, ?_⟩
  · split_ifs <;> rfl
  · rintro (h | h)
    · simp [h]
    · simp [h]
  · intro h1 h2
    have c1 : (f.fixed && e != -1) = true := by simp [h1, h2]
    rw [if_pos c1]
    split_ifs <;> rfl

/-- C14, counterexample: in scientific mode with `digits = 0` the first (and
only) extraction of 3.140625 is asked for 0 digits, that is for all digits,
not for `digits + 1 = 1`. -/
theorem scientific_zero_digits_requests_all :
    (str_calls (ref_get_str 53) (.regular false 201 (-6)) 0 scientific_only).head? = some 0 ∧
      str_body (ref_get_str 53) (.regular false 201 (-6)) 0 scientific_only 0 =
        some ([0], .formatted "31406250000000000" 0 0 scientific_only false) ∧
      ((0 : Int) + 1).toNat ≠ 0 := by
  decide

/-- C14, amended: on a regular number and a count `0 <= digits`, the first
engine extraction is asked for `digits + 1` digits when the scientific flag is
set and `digits >= 1`, for exactly `digits` when the scientific flag is clear
(general and fixed mode), and for 0, that is for all digits, when `digits = 0`,
the scientific flag set or not. -/
theorem first_request_count (get_str : mpfr_t → Nat → List Char × Int) (neg : Bool)
    (mant : ℕ+) (exp : Int) (digits : Int) (f : fmtflags)
    (hd0 : 0 ≤ digits) (hd2 : digits < 2 ^ 63) :
    (f.scientific = true → 1 ≤ digits →
        (str_calls get_str (.regular neg mant exp) digits f).head? = some (digits + 1).toNat) ∧
      (f.scientific = false →
        (str_calls get_str (.regular neg mant exp) digits f).head? = some digits.toNat) ∧
      (digits = 0 →
        (str_calls get_str (.regular neg mant exp) digits f).head? = some 0) := by
  rw [(str_calls_regular get_str neg mant exp digits f).1]
  refine ⟨fun hs h1 => ?_, fun hs => ?_, fun h0 => ?_⟩
  · rw [effective_count_of_pos f digits h1, hs, if_pos rfl,
      size_t_cast_of_nonneg _ (by omega) (by omega)]
  · have : effective_count f digits = digits := by simp [effective_count, hs]
    rw [this, size_t_cast_of_nonneg _ hd0 (by omega)]
  · have : effective_count f digits = 0 := by simp [effective_count, h0]
    rw [this]
    rfl

/-- Witness of C14 as amended: 3.140625 is first asked for 4 digits at
`digits = 3` in scientific mode, for 3 in general mode, and for all digits at
`digits = 0` in scientific mode. -/
theorem first_request_count_witness :
    (str_calls (ref_get_str 53) (.regular false 201 (-6)) 3 scientific_only).head? = some 4 ∧
      (str_calls (ref_get_str 53) (.regular false 201 (-6)) 3 general_flags).head? = some 3 ∧
      (str_calls (ref_get_str 53) (.regular false 201 (-6)) 0 scientific_only).head? = some 0 :=
  ⟨(first_request_count (ref_get_str 53) false 201 (-6) 3 scientific_only (by decide)
      (by decide)).1 rfl (by decide),
    (first_request_count (ref_get_str 53) false 201 (-6) 3 general_flags (by decide)
      (by decide)).2.1 rfl,
    (first_request_count (ref_get_str 53) false 201 (-6) 0 scientific_only (by decide)
      (by decide)).2.2 rfl⟩

/-- Whatever `str_body` returns is a token, for an infinity or a NaN, or
formatter arguments in which the digit count is the caller's, the flags are
the caller's and the is-zero flag is `mpfr_zero_p`. -/
theorem str_body_frame (get_str : mpfr_t → Nat → List Char × Int) (m : mpfr_t)
    (digits : Int) (f : fmtflags) (fuel : Nat) (calls : List Nat) (r : Rendering)
    (h : str_body get_str m digits f fuel = some (calls, r)) :
    (∃ t, r = .token t ∧ (mpfr_inf_p m = true ∨ mpfr_nan_p m = true)) ∨
      (mpfr_inf_p m = false ∧ mpfr_nan_p m = false ∧
        ∃ res e, r = .formatted res e digits f (mpfr_zero_p m)) := by
  cases m with
  | nan neg =>
    simp only [str_body, mpfr_inf_p, mpfr_nan_p, Bool.false_eq_true, if_false,
      if_true, Option.some.injEq, Prod.mk.injEq] at h
    exact Or.inl ⟨_, h.2.symm, Or.inr rfl⟩
  | inf neg =>
    simp only [str_body, mpfr_inf_p, if_true] at h
    split_ifs at h <;>
      (simp only [Option.some.injEq, Prod.mk.injEq] at h; exact Or.inl ⟨_, h.2.symm, Or.inl rfl⟩)
  | zero neg =>
    simp only [str_body, mpfr_inf_p, mpfr_nan_p, mpfr_zero_p, Bool.false_eq_true,
      if_false, if_true, Option.some.injEq, Prod.mk.injEq] at h
    exact Or.inr ⟨rfl, rfl, _, _, h.2.symm⟩
  | regular neg mant exp =>
    right
    refine ⟨rfl, rfl, ?_⟩
    simp only [str_body, mpfr_inf_p, mpfr_nan_p, mpfr_zero_p, Bool.false_eq_true,
      if_false] at h
    generalize (if (f.scientific && digits != 0) = true then digits + 1 else digits) = d at h
    generalize (get_str (.regular neg mant exp) (size_t_cast d)).2 - 1 = e at h
    by_cases c1 : (f.fixed && e != -1) = true
    · rw [if_pos c1] at h
      by_cases c2 : (d + (e + 1) == 0) = true
      · rw [if_pos c2] at h
        split_ifs at h
        all_goals first
          | (simp only [Option.some.injEq, Prod.mk.injEq] at h; exact ⟨_, _, h.2.symm⟩)
          | (split at h <;> first
              | (injection h; done)
              | (simp only [Option.some.injEq, Prod.mk.injEq] at h; exact ⟨_, _, h.2.symm⟩))
      · rw [if_neg c2] at h
        split_ifs at h <;>
          (simp only [Option.some.injEq, Prod.mk.injEq] at h; exact ⟨_, _, h.2.symm⟩)
    · rw [if_neg c1] at h
      simp only [Option.some.injEq, Prod.mk.injEq] at h
      exact ⟨_, _, h.2.symm⟩

/-- C15, the code at a failing input: 329 / 65536 = 0.0050201416015625, a
non-zero finite number, at two fixed digits.  The corrected count is 0 and the
all-digits string starts with "50", so the scan of lines 227-234 never ends:
for no amount of fuel does `str` reach line 271, the formatter is not called
and no string is returned. -/
theorem formatter_not_reached
    (format_float_string : String → Int → Int → fmtflags → Bool → String) (fuel : Nat) :
    mpfr_inf_p (.regular false 329 (-16)) = false ∧
      mpfr_nan_p (.regular false 329 (-16)) = false ∧
      (ref_get_str 53 (.regular false 329 (-16)) 0).1 = "50201416015625000".toList ∧
      str_body (ref_get_str 53) (.regular false 329 (-16)) 2 fixed_only fuel = none ∧
      str (ref_get_str 53) format_float_string (.regular false 329 (-16)) 2 fixed_only fuel
        = none := by
  have h := str_body_stuck (ref_get_str 53) false 329 (-16) 2 fixed_only rfl rfl
    (by decide) (by decide) (by decide) (by decide) fuel
  exact ⟨rfl, rfl, by decide, h, str_none_of_body _ _ _ _ _ _ h⟩

/-- C16: `str` calls the engine's digit extraction at most twice: not at all
for an infinity, a NaN or a zero; exactly once on a regular number when the
fixed flag is clear or the first extraction's normalised exponent is -1;
exactly twice (the first extraction and one re-extraction) otherwise.  The
call list of any run of `str_body` that returns is this list. -/
theorem engine_call_count (get_str : mpfr_t → Nat → List Char × Int) (m : mpfr_t)
    (digits : Int) (f : fmtflags) :
    (str_calls get_str m digits f).length ≤ 2 ∧
      ((mpfr_inf_p m = true ∨ mpfr_nan_p m = true ∨ mpfr_zero_p m = true) →
        str_calls get_str m digits f = []) ∧
      (mpfr_inf_p m = false → mpfr_nan_p m = false → mpfr_zero_p m = false →
        (f.fixed = false ∨ first_exponent get_str m (effective_count f digits) = -1) →
        (str_calls get_str m digits f).length = 1) ∧
      (mpfr_inf_p m = false → mpfr_nan_p m = false → mpfr_zero_p m = false →
        f.fixed = true → first_exponent get_str m (effective_count f digits) ≠ -1 →
        (str_calls get_str m digits f).length = 2) ∧
      (∀ fuel calls r, str_body get_str m digits f fuel = some (calls, r) →
        calls = str_calls get_str m digits f) := by
  have hlink : ∀ fuel calls r, str_body get_str m digits f fuel = some (calls, r) →
      calls = str_calls get_str m digits f :=
    fun fuel calls r h => str_body_calls get_str m digits f fuel calls r h
  cases m with
  | nan neg =>
    have h0 : str_calls get_str (.nan neg) digits f = [] := by
      simp [str_calls, mpfr_inf_p, mpfr_nan_p]
    refine ⟨by simp [h0], fun _ => h0, fun _ h => ?_, fun _ h => ?_, hlink⟩ <;>
      exact absurd h (by simp [mpfr_nan_p])
  | inf neg =>
    have h0 : str_calls get_str (.inf neg) digits f = [] := by
      simp [str_calls, mpfr_inf_p]
    refine ⟨by simp [h0], fun _ => h0, fun h => ?_, fun h => ?_, hlink⟩ <;>
      exact absurd h (by simp [mpfr_inf_p])
  | zero neg =>
    have h0 : str_calls get_str (.zero neg) digits f = [] := by
      simp [str_calls, mpfr_inf_p, mpfr_nan_p, mpfr_zero_p]
    refine ⟨by simp [h0], fun _ => h0, fun _ _ h => ?_, fun _ _ h => ?_, hlink⟩ <;>
      exact absurd h (by simp [mpfr_zero_p])
  | regular neg mant exp =>
    obtain ⟨-, h1, h2⟩ := str_calls_regular get_str neg mant exp digits f
    refine ⟨?_, fun h => ?_, fun _ _ _ h => h1 h, fun _ _ _ hf he => h2 hf he, hlink⟩
    · by_cases hf : f.fixed = true
      · by_cases he : first_exponent get_str (.regular neg mant exp)
            (effective_count f digits) = -1
        · rw [h1 (Or.inr he)]; decide
        · rw [h2 hf he]
      · rw [h1 (Or.inl (by simpa using hf))]; decide
    · rcases h with h | h | h <;> simp [mpfr_inf_p, mpfr_nan_p, mpfr_zero_p] at h

/-- Witness of C16: no call for a negative zero; one call for 0.75 at two
fixed digits (normalised exponent -1) and for 1234.5 in general mode; two
calls for 1234.5 at two fixed digits, as the run of `str_body` reports. -/
theorem engine_call_count_witness :
    str_calls (ref_get_str 53) (.zero true) 2 fixed_only = [] ∧
      (str_calls (ref_get_str 53) (.regular false 3 (-2)) 2 fixed_only).length = 1 ∧
      (str_calls (ref_get_str 53) (.regular false 2469 (-1)) 2 general_flags).length = 1 ∧
      (str_calls (ref_get_str 53) (.regular false 2469 (-1)) 2 fixed_only).length = 2 ∧
      [2, 6] = str_calls (ref_get_str 53) (.regular false 2469 (-1)) 2 fixed_only :=
  ⟨(engine_call_count (ref_get_str 53) (.zero true) 2 fixed_only).2.1 (Or.inr (Or.inr rfl)),
    (engine_call_count (ref_get_str 53) (.regular false 3 (-2)) 2 fixed_only).2.2.1 rfl rfl rfl
      (Or.inr (by decide)),
    (engine_call_count (ref_get_str 53) (.regular false 2469 (-1)) 2 general_flags).2.2.1
      rfl rfl rfl (Or.inl rfl),
    (engine_call_count (ref_get_str 53) (.regular false 2469 (-1)) 2 fixed_only).2.2.2.1
      rfl rfl rfl rfl (by decide),
    (engine_call_count (ref_get_str 53) (.regular false 2469 (-1)) 2 fixed_only).2.2.2.2
      0 [2, 6] (.formatted "123450" 3 2 fixed_only false) (by decide)⟩

/-! ## Fixed mode with a digit count of 0 -/

/-- In fixed mode with `digits = 0`, `str_body` on a regular number, by the
engine exponent `E` of the all-digits first extraction: handed on unchanged
when `E = 0`, extracted again at count `E` when `E > 0`, forced to the digit 0
when `E < 0`.  The corrected count is `E` and is 0 only when the correction is
skipped, so the loop of lines 227-234 is not reached. -/
theorem str_body_fixed_zero (get_str : mpfr_t → Nat → List Char × Int) (neg : Bool)
    (mant : ℕ+) (exp : Int) (f : fmtflags) (fuel : Nat)
    (hfix : f.fixed = true) (hsci : f.scientific = false) :
    str_body get_str (.regular neg mant exp) 0 f fuel =
      if (get_str (.regular neg mant exp) 0).2 = 0 then
        some ([0], .formatted ⟨(get_str (.regular neg mant exp) 0).1⟩ (-1) 0 f false)
      else if 0 < (get_str (.regular neg mant exp) 0).2 then
        some ([0, size_t_cast (get_str (.regular neg mant exp) 0).2],
          .formatted
            ⟨(get_str (.regular neg mant exp)
              (size_t_cast (get_str (.regular neg mant exp) 0).2)).1⟩
            ((get_str (.regular neg mant exp)
              (size_t_cast (get_str (.regular neg mant exp) 0).2)).2 - 1) 0 f false)
      else
        some ([0, 1],
          .formatted ⟨sign_chars (get_str (.regular neg mant exp) 1).1 ++ ['0']⟩
            ((get_str (.regular neg mant exp) 1).2 - 1) 0 f false) := by
  have hz : size_t_cast 0 = 0 := by decide
  have hfe : first_exponent get_str (.regular neg mant exp) 0
      = (get_str (.regular neg mant exp) 0).2 - 1 := by
    simp [first_exponent, hz]
  have hcc : corrected_count get_str (.regular neg mant exp) 0
      = (get_str (.regular neg mant exp) 0).2 := by
    simp [corrected_count, hfe]
  rw [str_body_fixed get_str neg mant exp 0 f fuel hfix hsci, hcc, hfe, hz]
  by_cases h0 : (get_str (.regular neg mant exp) 0).2 = 0
  · simp [h0]
  · have h1 : (get_str (.regular neg mant exp) 0).2 - 1 ≠ -1 := by omega
    simp only [h0, h1, if_false, cstr_store_sign]

/-- C17, counterexample: 0.75 in fixed mode with `digits = 0`.  The all-digits
extraction has normalised exponent -1, the correction is skipped, and the
formatter receives seventeen digits with exponent -1: more than
`exponent + 1 = 0` digits, and neither the single digit 0 nor 1. -/
theorem fixed_zero_digits_keeps_fraction :
    str_body (ref_get_str 53) (.regular false 3 (-2)) 0 fixed_only 0 =
        some ([0], .formatted "75000000000000000" (-1) 0 fixed_only false) ∧
      ¬ (((digits_part ("75000000000000000" : String).data).length : Int) ≤ -1 + 1) ∧
      ("75000000000000000" : String) ≠ "0" ∧ ("75000000000000000" : String) ≠ "1" := by
  decide

/-- C17, amended: in fixed mode with `digits = 0` on a regular number, with `e`
the normalised exponent of the all-digits first extraction.  If `e = -1` that
extraction is handed on unchanged with exponent -1, fractional digits
included.  If `e < -1` the result is the single digit 0 behind the sign.  If
`e >= 0` the result is the engine's extraction at count `e + 1`, which for an
engine returning as many digits as asked is at most `exponent + 1` digits long
whenever the re-extraction's exponent is not below `e`. -/
theorem fixed_zero_digits_integer_part (get_str : mpfr_t → Nat → List Char × Int)
    (neg : Bool) (mant : ℕ+) (exp : Int) (f : fmtflags) (fuel : Nat)
    (hfix : f.fixed = true) (hsci : f.scientific = false) :
    (first_exponent get_str (.regular neg mant exp) 0 = -1 →
      str_body get_str (.regular neg mant exp) 0 f fuel =
        some ([0], .formatted ⟨(get_str (.regular neg mant exp) 0).1⟩ (-1) 0 f false)) ∧
    (first_exponent get_str (.regular neg mant exp) 0 < -1 →
      str_body get_str (.regular neg mant exp) 0 f fuel =
        some ([0, 1],
          .formatted ⟨sign_chars (get_str (.regular neg mant exp) 1).1 ++ ['0']⟩
            ((get_str (.regular neg mant exp) 1).2 - 1) 0 f false)) ∧
    (0 ≤ first_exponent get_str (.regular neg mant exp) 0 →
      str_body get_str (.regular neg mant exp) 0 f fuel =
        some ([0, size_t_cast (first_exponent get_str (.regular neg mant exp) 0 + 1)],
          .formatted
            ⟨(get_str (.regular neg mant exp)
              (size_t_cast (first_exponent get_str (.regular neg mant exp) 0 + 1))).1⟩
            ((get_str (.regular neg mant exp)
              (size_t_cast (first_exponent get_str (.regular neg mant exp) 0 + 1))).2 - 1)
            0 f false) ∧
        ((digits_part (get_str (.regular neg mant exp)
              (size_t_cast (first_exponent get_str (.regular neg mant exp) 0 + 1))).1).length
            = size_t_cast (first_exponent get_str (.regular neg mant exp) 0 + 1) →
          first_exponent get_str (.regular neg mant exp) 0 ≤
            (get_str (.regular neg mant exp)
              (size_t_cast (first_exponent get_str (.regular neg mant exp) 0 + 1))).2 - 1 →
          ((digits_part (get_str (.regular neg mant exp)
              (size_t_cast (first_exponent get_str (.regular neg mant exp) 0 + 1))).1).length
              : Int) ≤
            ((get_str (.regular neg mant exp)
              (size_t_cast (first_exponent get_str (.regular neg mant exp) 0 + 1))).2 - 1)
              + 1)) := by
  have hz : size_t_cast 0 = 0 := by decide
  have hfe : first_exponent get_str (.regular neg mant exp) 0
      = (get_str (.regular neg mant exp) 0).2 - 1 := by
    simp [first_exponent, hz]
  rw [str_body_fixed_zero get_str neg mant exp f fuel hfix hsci, hfe]
  refine ⟨fun h => ?_, fun h => ?_, fun h => ⟨?_, fun hlen hexp => ?_⟩⟩
  · have h0 : (get_str (.regular neg mant exp) 0).2 = 0 := by omega
    simp [h0]
  · have h0 : (get_str (.regular neg mant exp) 0).2 ≠ 0 := by omega
    have h1 : ¬ 0 < (get_str (.regular neg mant exp) 0).2 := by omega
    simp only [h0, h1, if_false]
  · have h0 : (get_str (.regular neg mant exp) 0).2 ≠ 0 := by omega
    have h1 : 0 < (get_str (.regular neg mant exp) 0).2 := by omega
    simp only [h0, h1, if_false, if_true, sub_add_cancel]
  · rw [hlen]
    have hle : ((size_t_cast ((get_str (.regular neg mant exp) 0).2 - 1 + 1) : Nat) : Int)
        ≤ (get_str (.regular neg mant exp) 0).2 - 1 + 1 := by
      unfold size_t_cast
      have hnn : (0 : Int) ≤ (get_str (.regular neg mant exp) 0).2 - 1 + 1 := by omega
      rw [Int.toNat_of_nonneg (Int.emod_nonneg _ (by norm_num))]
      omega
    omega

/-- Witness of C17 as amended: with `digits = 0` in fixed mode, 0.5 is handed
on with all its digits; -2^-14 becomes "-0"; 1234.5 has `e = 3` and is
extracted again at count 4, giving four digits with exponent 3. -/
theorem fixed_zero_digits_integer_part_witness :
    str_body (ref_get_str 53) (.regular false 1 (-1)) 0 fixed_only 0 =
        some ([0], .formatted "50000000000000000" (-1) 0 fixed_only false) ∧
      str_body (ref_get_str 53) (.regular true 1 (-14)) 0 fixed_only 0 =
        some ([0, 1], .formatted "-0" (-5) 0 fixed_only false) ∧
      str_body (ref_get_str 53) (.regular false 2469 (-1)) 0 fixed_only 0 =
        some ([0, 4], .formatted "1234" 3 0 fixed_only false) ∧
      ((digits_part (ref_get_str 53 (.regular false 2469 (-1)) 4).1).length : Int) ≤ 3 + 1 :=
  ⟨(fixed_zero_digits_integer_part (ref_get_str 53) false 1 (-1) fixed_only 0 rfl rfl).1
      (by decide),
    (fixed_zero_digits_integer_part (ref_get_str 53) true 1 (-14) fixed_only 0 rfl rfl).2.1
      (by decide),
    ((fixed_zero_digits_integer_part (ref_get_str 53) false 2469 (-1) fixed_only 0 rfl
      rfl).2.2 (by decide)).1,
    ((fixed_zero_digits_integer_part (ref_get_str 53) false 2469 (-1) fixed_only 0 rfl
      rfl).2.2 (by decide)).2 (by decide) (by decide)⟩

/-- C18, counterexample: the 53-bit number nearest 0.4, below one half, in
fixed mode with `digits = 0`.  The formatter receives the seventeen digits
"40000000000000002" with exponent -1, not the single digit 0. -/
theorem fixed_zero_digits_four_tenths :
    str_body (ref_get_str 53) (.regular false 3602879701896397 (-53)) 0 fixed_only 0 =
        some ([0], .formatted "40000000000000002" (-1) 0 fixed_only false) ∧
      ("40000000000000002" : String) ≠ "0" := by
  decide

/-- C18, amended: in fixed mode with `digits = 0`, for an engine whose
all-digits exponent `E` is the decimal exponent of the number
(`10^(E-1) <= |m| < 10^E`), a number with `0.1 <= |m| < 1` is not rounded to a
single digit: its all-digits extraction is handed on with exponent -1, on
either side of one half; a number with `|m| < 0.1` is handed on as the single
digit 0 behind its sign. -/
theorem fixed_zero_digits_below_one (get_str : mpfr_t → Nat → List Char × Int)
    (neg : Bool) (mant : ℕ+) (exp : Int) (f : fmtflags) (fuel : Nat)
    (hfix : f.fixed = true) (hsci : f.scientific = false)
    (hE : (10 : ℚ) ^ ((get_str (.regular neg mant exp) 0).2 - 1)
        ≤ |mpfr_t.value (.regular neg mant exp)| ∧
      |mpfr_t.value (.regular neg mant exp)| < (10 : ℚ) ^ (get_str (.regular neg mant exp) 0).2) :
    ((1 : ℚ) / 10 ≤ |mpfr_t.value (.regular neg mant exp)| →
      |mpfr_t.value (.regular neg mant exp)| < 1 →
      str_body get_str (.regular neg mant exp) 0 f fuel =
        some ([0], .formatted ⟨(get_str (.regular neg mant exp) 0).1⟩ (-1) 0 f false)) ∧
    (|mpfr_t.value (.regular neg mant exp)| < 1 / 10 →
      str_body get_str (.regular neg mant exp) 0 f fuel =
        some ([0, 1],
          .formatted ⟨sign_chars (get_str (.regular neg mant exp) 1).1 ++ ['0']⟩
            ((get_str (.regular neg mant exp) 1).2 - 1) 0 f false)) := by
  have h10 : (1 : ℚ) < 10 := by norm_num
  rw [str_body_fixed_zero get_str neg mant exp f fuel hfix hsci]
  obtain ⟨hlo, hhi⟩ := hE
  refine ⟨fun h1 h2 => ?_, fun h1 => ?_⟩
  · have ha : (10 : ℚ) ^ ((get_str (.regular neg mant exp) 0).2 - 1) < (10 : ℚ) ^ (0 : ℤ) := by
      rw [zpow_zero]; exact lt_of_le_of_lt hlo h2
    have hb : (10 : ℚ) ^ (-1 : ℤ) < (10 : ℚ) ^ (get_str (.regular neg mant exp) 0).2 := by
      have : (10 : ℚ) ^ (-1 : ℤ) = 1 / 10 := by norm_num
      rw [this]; exact lt_of_le_of_lt h1 hhi
    rw [zpow_lt_zpow_iff_right₀ h10] at ha hb
    have h0 : (get_str (.regular neg mant exp) 0).2 = 0 := by omega
    simp [h0]
  · have ha : (10 : ℚ) ^ ((get_str (.regular neg mant exp) 0).2 - 1) < (10 : ℚ) ^ (-1 : ℤ) := by
      have : (10 : ℚ) ^ (-1 : ℤ) = 1 / 10 := by norm_num
      rw [this]; exact lt_of_le_of_lt hlo h1
    rw [zpow_lt_zpow_iff_right₀ h10] at ha
    have h0 : (get_str (.regular neg mant exp) 0).2 ≠ 0 := by omega
    have h1 : ¬ 0 < (get_str (.regular neg mant exp) 0).2 := by omega
    simp only [h0, h1, if_false]

/-- Witness of C18 as amended: the 53-bit number nearest 0.6, above one half,
is handed on as "59999999999999998" with exponent -1, and 2^-5 = 0.03125 as
the single digit 0. -/
theorem fixed_zero_digits_below_one_witness :
    str_body (ref_get_str 53) (.regular false 5404319552844595 (-53)) 0 fixed_only 0 =
        some ([0], .formatted "59999999999999998" (-1) 0 fixed_only false) ∧
      str_body (ref_get_str 53) (.regular false 1 (-5)) 0 fixed_only 0 =
        some ([0, 1], .formatted "0" (-2) 0 fixed_only false) := by
  have hv6 : mpfr_t.value (.regular false 5404319552844595 (-53))
      = 5404319552844595 / 2 ^ 53 := by
    norm_num [mpfr_t.value]
  have hv5 : mpfr_t.value (.regular false 1 (-5)) = 1 / 32 := by
    norm_num [mpfr_t.value]
  have hE6 : (ref_get_str 53 (.regular false 5404319552844595 (-53)) 0).2 = 0 := by decide
  have hE5 : (ref_get_str 53 (.regular false 1 (-5)) 0).2 = -1 := by decide
  have hp6 : |mpfr_t.value (.regular false 5404319552844595 (-53))|
      = 5404319552844595 / 2 ^ 53 := by
    rw [hv6, abs_of_pos (by norm_num)]
  have hp5 : |mpfr_t.value (.regular false 1 (-5))| = 1 / 32 := by
    rw [hv5, abs_of_pos (by norm_num)]
  exact ⟨(fixed_zero_digits_below_one (ref_get_str 53) false 5404319552844595 (-53) fixed_only
      0 rfl rfl (by rw [hE6, hp6]; norm_num)).1 (by rw [hp6]; norm_num) (by rw [hp6]; norm_num),
    (fixed_zero_digits_below_one (ref_get_str 53) false 1 (-5) fixed_only
      0 rfl rfl (by rw [hE5, hp5]; norm_num)).2 (by rw [hp5]; norm_num)⟩

/-! ## The worked scenarios -/

/-- C19, counterexample: 1234.5 in fixed mode with `digits = 0` under a
round-to-nearest-even engine.  The four-digit re-extraction of the tie 1234.5
is "1234", and that is what the formatter receives, not "1235". -/
theorem fixed_1234_5_not_rounded_up :
    ref_get_str 53 (.regular false 2469 (-1)) 4 = (['1', '2', '3', '4'], 4) ∧
      str_body (ref_get_str 53) (.regular false 2469 (-1)) 0 fixed_only 0 =
        some ([0, 4], .formatted "1234" 3 0 fixed_only false) ∧
      ("1234" : String) ≠ "1235" := by
  decide

/-- C19, amended: rendering 1234.5 in fixed mode with `digits = 0`, for any
engine whose all-digits extraction of it has engine exponent 4, triggers the
correction with corrected count 4 and hands the formatter the engine's own
four-digit extraction with that extraction's exponent less one; `str` rounds
nothing itself on this path. -/
theorem fixed_1234_5_hands_engine_digits (get_str : mpfr_t → Nat → List Char × Int)
    (f : fmtflags) (fuel : Nat) (hfix : f.fixed = true) (hsci : f.scientific = false)
    (hE : (get_str (.regular false 2469 (-1)) 0).2 = 4) :
    mpfr_t.value (.regular false 2469 (-1)) = 2469 / 2 ∧
      first_exponent get_str (.regular false 2469 (-1)) 0 ≠ -1 ∧
      corrected_count get_str (.regular false 2469 (-1)) 0 = 4 ∧
      str_body get_str (.regular false 2469 (-1)) 0 f fuel =
        some ([0, 4],
          .formatted ⟨(get_str (.regular false 2469 (-1)) 4).1⟩
            ((get_str (.regular false 2469 (-1)) 4).2 - 1) 0 f false) := by
  have hz : size_t_cast 0 = 0 := by decide
  have h4 : size_t_cast 4 = 4 := by decide
  have hfe : first_exponent get_str (.regular false 2469 (-1)) 0 = 3 := by
    simp [first_exponent, hz, hE]
  have hcc : corrected_count get_str (.regular false 2469 (-1)) 0 = 4 := by
    simp [corrected_count, hfe]
  refine ⟨by norm_num [mpfr_t.value], by rw [hfe]; decide, hcc, ?_⟩
  rw [str_body_fixed_zero get_str false 2469 (-1) f fuel hfix hsci, hE, h4]
  simp

/-- Witness of C19 as amended: with the round-to-nearest-even reference engine
the four-digit extraction handed on is "1234", with exponent 3. -/
theorem fixed_1234_5_hands_engine_digits_witness :
    corrected_count (ref_get_str 53) (.regular false 2469 (-1)) 0 = 4 ∧
      str_body (ref_get_str 53) (.regular false 2469 (-1)) 0 fixed_only 1 =
        some ([0, 4], .formatted "1234" 3 0 fixed_only false) :=
  ⟨(fixed_1234_5_hands_engine_digits (ref_get_str 53) fixed_only 1 rfl rfl (by decide)).2.2.1,
    (fixed_1234_5_hands_engine_digits (ref_get_str 53) fixed_only 1 rfl rfl (by decide)).2.2.2⟩

/-- C20, counterexample: the 53-bit number nearest 9.9999 at two fixed digits.
The first extraction is "10" with engine exponent 2, the corrected count is 4,
and the formatter receives the four digits "1000" with exponent 1, not the
five digits "10000". -/
theorem fixed_9_9999_four_digits :
    ref_get_str 53 (.regular false 2814721619608889 (-48)) 2 = (['1', '0'], 2) ∧
      str_body (ref_get_str 53) (.regular false 2814721619608889 (-48)) 2 fixed_only 0 =
        some ([2, 4], .formatted "1000" 1 2 fixed_only false) ∧
      ("1000" : String) ≠ "10000" := by
  decide

/-- C20, amended: rendering 9.9999 (the 53-bit number nearest it) at two fixed
digits, for any engine whose two-digit extraction of it has engine exponent 2
(the rounding to "10"), goes through the re-extraction at corrected count 4
and hands the formatter the engine's four-digit extraction with that
extraction's exponent less one. -/
theorem fixed_9_9999_reextracts_four (get_str : mpfr_t → Nat → List Char × Int)
    (f : fmtflags) (fuel : Nat) (hfix : f.fixed = true) (hsci : f.scientific = false)
    (hE : (get_str (.regular false 2814721619608889 (-48)) 2).2 = 2) :
    |mpfr_t.value (.regular false 2814721619608889 (-48)) - 99999 / 10000| < 1 / 10 ^ 15 ∧
      corrected_count get_str (.regular false 2814721619608889 (-48)) 2 = 4 ∧
      str_body get_str (.regular false 2814721619608889 (-48)) 2 f fuel =
        some ([2, 4],
          .formatted ⟨(get_str (.regular false 2814721619608889 (-48)) 4).1⟩
            ((get_str (.regular false 2814721619608889 (-48)) 4).2 - 1) 2 f false) := by
  have h2 : size_t_cast 2 = 2 := by decide
  have h4 : size_t_cast 4 = 4 := by decide
  have hfe : first_exponent get_str (.regular false 2814721619608889 (-48)) 2 = 1 := by
    simp [first_exponent, h2, hE]
  have hcc : corrected_count get_str (.regular false 2814721619608889 (-48)) 2 = 4 := by
    simp [corrected_count, hfe]
  refine ⟨?_, hcc, ?_⟩
  · rw [abs_lt]
    norm_num [mpfr_t.value]
  · rw [str_body_fixed get_str false 2814721619608889 (-48) 2 f fuel hfix hsci, hfe, hcc, h2,
      h4]
    simp

/-- Witness of C20 as amended: with the reference engine the string handed on
is "1000" with exponent 1, which denotes 10.00. -/
theorem fixed_9_9999_reextracts_four_witness :
    str_body (ref_get_str 53) (.regular false 2814721619608889 (-48)) 2 fixed_only 1 =
        some ([2, 4], .formatted "1000" 1 2 fixed_only false) ∧
      pair_value "1000" 1 = 10 := by
  refine ⟨(fixed_9_9999_reextracts_four (ref_get_str 53) fixed_only 1 rfl rfl
    (by decide)).2.2, ?_⟩
  have h1 : digit_val '1' = 1 := by decide
  have h0 : digit_val '0' = 0 := by decide
  have ha : cstr_at ("1000" : String).data 0 ≠ '-' := by decide
  have hb : digit_offset ("1000" : String).data = 0 := by decide
  have hc : ("1000" : String).data = ['1', '0', '0', '0'] := rfl
  rw [pair_value, if_neg ha, hb, hc]
  simp only [List.drop_zero, frac_value, h1, h0]
  norm_num

/-- C21: rendering 0.00001234 (the 53-bit number nearest it) in scientific mode
with `digits = 3` asks the engine for 4 significant digits, makes no second
extraction, and hands the formatter the four digits "1234" with exponent -5. -/
theorem scientific_1234_scenario (fuel : Nat) :
    |mpfr_t.value (.regular false 1821062574956607 (-67)) - 1234 / 10 ^ 8| < 1 / 10 ^ 21 ∧
      str_calls (ref_get_str 53) (.regular false 1821062574956607 (-67)) 3 scientific_only
        = [4] ∧
      ref_get_str 53 (.regular false 1821062574956607 (-67)) 4 = (['1', '2', '3', '4'], -4) ∧
      str_body (ref_get_str 53) (.regular false 1821062574956607 (-67)) 3 scientific_only fuel
        = some ([4], .formatted "1234" (-5) 3 scientific_only false) := by
  refine ⟨?_, by decide, by decide, ?_⟩
  · rw [abs_lt]
    norm_num [mpfr_t.value]
  · rw [str_body_unfixed (ref_get_str 53) false 1821062574956607 (-67) 3 scientific_only fuel
      rfl]
    decide

/-! ## Integer conversions -/

/-- C22, counterexample: converting +infinity to `unsigned long` and -infinity
to `long` raises no error; the end of the range that the engine returns is
stored. -/
theorem convert_infinity_stores :
    eval_convert_to_ulong (ref_get_int 0 (2 ^ 64 - 1)) (.inf false) = .ok (2 ^ 64 - 1) ∧
      eval_convert_to_long (ref_get_int (-2 ^ 63) (2 ^ 63 - 1)) (.inf true) = .ok (-2 ^ 63) :=
  ⟨rfl, rfl⟩

/-- C22, amended: each of the four integer conversions raises an error exactly
for NaN, of either sign bit, and stores no result then; for +infinity,
-infinity, a zero and every regular number it raises none and stores what the
engine's conversion returns. -/
theorem convert_throws_only_for_nan (get : mpfr_t → Int) :
    (∀ neg,
      eval_convert_to_ulong get (.nan neg) = .error "Could not convert NaN to integer." ∧
      eval_convert_to_long get (.nan neg) = .error "Could not convert NaN to integer." ∧
      eval_convert_to_ulonglong get (.nan neg) = .error "Could not convert NaN to integer." ∧
      eval_convert_to_longlong get (.nan neg) = .error "Could not convert NaN to integer.") ∧
    (∀ m, mpfr_nan_p m = false →
      eval_convert_to_ulong get m = .ok (get m) ∧
      eval_convert_to_long get m = .ok (get m) ∧
      eval_convert_to_ulonglong get m = .ok (get m) ∧
      eval_convert_to_longlong get m = .ok (get m)) ∧
    (∀ neg, mpfr_nan_p (.inf neg) = false ∧ mpfr_nan_p (.zero neg) = false) ∧
    (∀ neg mant exp, mpfr_nan_p (.regular neg mant exp) = false) := by
  refine ⟨fun neg => ⟨rfl, rfl, rfl, rfl⟩, fun m hm => ?_, fun neg => ⟨rfl, rfl⟩,
    fun _ _ _ => rfl⟩
  simp [eval_convert_to_ulong, eval_convert_to_long, eval_convert_to_ulonglong,
    eval_convert_to_longlong, hm]

/-- Witness of C22 as amended: 1234.5 converts to `long` without an error (to
1234, the tie going to the even integer), and so does -infinity (to the least
`long`). -/
theorem convert_throws_only_for_nan_witness :
    eval_convert_to_long (ref_get_int (-2 ^ 63) (2 ^ 63 - 1)) (.regular false 2469 (-1))
        = .ok 1234 ∧
      eval_convert_to_long (ref_get_int (-2 ^ 63) (2 ^ 63 - 1)) (.inf true)
        = .ok (-2 ^ 63) :=
  ⟨((convert_throws_only_for_nan (ref_get_int (-2 ^ 63) (2 ^ 63 - 1))).2.1
      (.regular false 2469 (-1)) rfl).2.1,
    ((convert_throws_only_for_nan (ref_get_int (-2 ^ 63) (2 ^ 63 - 1))).2.1
      (.inf true) rfl).2.1⟩

/-! ## Precision bookkeeping -/

/-- C23, what the code does: with any bits-to-decimal conversion that shrinks
its argument (as `digits2_2_10` does), for every `d >= 1` the getter after
`precision(d)` returns less than `d`, because the setter installs
`digits2_2_10(d)` bits, itself less than `d`, where the constructor of lines
486-490 installs `digits10_2_2(d)` bits. -/
theorem precision_round_trip_fails (d2_2_10 d10_2_2 : Nat → Nat)
    (mpfr_set : Nat → mpfr_t → mpfr_t) (x : mpfr_var) (d : Nat)
    (hle : ∀ n, d2_2_10 n ≤ n) (hlt : ∀ n, 1 ≤ n → d2_2_10 n < n) (hd : 1 ≤ d) :
    mpfr_get_prec (precision_set d2_2_10 x d) = d2_2_10 d ∧
      mpfr_get_prec (precision_set d2_2_10 x d) < d ∧
      precision d2_2_10 (precision_set d2_2_10 x d) < d ∧
      mpfr_get_prec (mpfr_float_backend_with_digits d10_2_2 mpfr_set x d) = d10_2_2 d := by
  have h1 : d2_2_10 d < d := hlt d hd
  have h2 : d2_2_10 (d2_2_10 d) ≤ d2_2_10 d := hle _
  refine ⟨rfl, h1, ?_, rfl⟩
  show d2_2_10 (d2_2_10 d) % 2 ^ 32 < d
  exact lt_of_le_of_lt (Nat.mod_le _ _) (lt_of_le_of_lt h2 h1)

/-- Witness of C23: at `d = 50` the setter installs 15 bits where construction
with 50 digits installs 168, and the getter then returns 4, not 50. -/
theorem precision_round_trip_fails_witness :
    (mpfr_get_prec (precision_set digits2_2_10 (mpfr_init2 168) 50) = digits2_2_10 50 ∧
      mpfr_get_prec (precision_set digits2_2_10 (mpfr_init2 168) 50) < 50 ∧
      precision digits2_2_10 (precision_set digits2_2_10 (mpfr_init2 168) 50) < 50 ∧
      mpfr_get_prec (mpfr_float_backend_with_digits digits10_2_2 (fun _ v => v)
        (mpfr_init2 168) 50) = digits10_2_2 50) ∧
      digits2_2_10 50 = 15 ∧
      precision digits2_2_10 (precision_set digits2_2_10 (mpfr_init2 168) 50) = 4 ∧
      digits10_2_2 50 = 168 ∧
      precision digits2_2_10 (mpfr_float_backend_with_digits digits10_2_2 (fun _ v => v)
        (mpfr_init2 168) 50) = 50 := by
  have hle : ∀ n, digits2_2_10 n ≤ n := by
    intro n
    unfold digits2_2_10
    have := Nat.mod_le (n * 301) (2 ^ 64)
    omega
  have hlt : ∀ n, 1 ≤ n → digits2_2_10 n < n := by
    intro n hn
    unfold digits2_2_10
    have := Nat.mod_le (n * 301) (2 ^ 64)
    omega
  have h := precision_round_trip_fails digits2_2_10 digits10_2_2 (fun _ v => v)
    (mpfr_init2 168) 50 hle hlt (by decide)
  exact ⟨h, by decide, by decide, by decide, by decide⟩

/-- C28: `boost::math::tools::digits` for the run-time-precision type returns
50 in every process state, also after `default_precision(v)` has changed the
process-wide default; `default_precision()` then reports `v`, and 50 at
start-up. -/
theorem tools_digits_constant (g : default_state) (v : Nat) :
    tools_digits g = 50 ∧
      tools_digits (default_precision_set g v) = 50 ∧
      default_precision (default_precision_set g v) = v ∧
      default_precision initial_default_state = 50 :=
  ⟨rfl, rfl, rfl, rfl⟩

/-! ## `numeric_limits` -/

theorem ten_pow_lt_two_pow (D k : Nat) (hD : 1 ≤ D) (hk : 1000 * D ≤ 301 * k) :
    10 ^ D < 2 ^ k := by
  by_contra hcon
  have h1 : 2 ^ k ≤ 10 ^ D := not_lt.mp hcon
  have hpow : ∀ n : Nat, (2 ^ k) ^ n ≤ (10 ^ D) ^ n := fun n => Nat.pow_le_pow_left h1 n
  have h2 : (2 ^ k) ^ 301 ≤ (10 ^ D) ^ 301 := hpow 301
  have h3 : (10 : Nat) ^ 301 < 2 ^ 1000 := by norm_num
  have h4 : ((10 : Nat) ^ 301) ^ D < (2 ^ 1000) ^ D :=
    Nat.pow_lt_pow_left h3 (by omega)
  have h5 : (2 : Nat) ^ (1000 * D) ≤ 2 ^ (301 * k) := Nat.pow_le_pow_right (by norm_num) hk
  rw [← pow_mul, ← pow_mul] at h4
  rw [← pow_mul, ← pow_mul, mul_comm k 301, mul_comm D 301] at h2
  omega

theorem int_cast_of_range (v : Int) (h0 : -2 ^ 31 ≤ v) (h1 : v < 2 ^ 31) : int_cast v = v := by
  unfold int_cast
  omega

/-- C25, counterexample: at `Digits10 = 646392578` the product
`Digits10 * 1000` fits a 64-bit `long`, but the sum 2147483649 does not fit
the `int` it is cast to: the reported `digits` is -2147483647 and
`2^(digits - 1)` is below `10^Digits10`. -/
theorem digits_wraps_in_int :
    (646392578 : Int) * 1000 < 2 ^ 63 ∧
      numeric_limits_digits 646392578 = -2147483647 ∧
      ¬ ((10 : ℚ) ^ (646392578 : Nat) < (2 : ℚ) ^ (numeric_limits_digits 646392578 - 1)) := by
  have hd : numeric_limits_digits 646392578 = -2147483647 := by decide
  refine ⟨by norm_num, hd, ?_⟩
  rw [hd, not_lt]
  have h1 : (2 : ℚ) ^ ((-2147483647 : Int) - 1) ≤ 1 :=
    zpow_le_one_of_nonpos₀ (by norm_num) (by norm_num)
  have h2 : (1 : ℚ) ≤ (10 : ℚ) ^ (646392578 : Nat) := one_le_pow₀ (by norm_num)
  exact le_trans h1 h2

/-- C25, amended: for every `Digits10 >= 1` whose formula value fits an `int`
(`Digits10 <= 646392577`), `numeric_limits::digits` is
`floor(1000 * Digits10 / 301)` plus 2 if 301 does not divide `1000 * Digits10`
and plus 1 otherwise, and it is enough bits for `Digits10` decimal digits:
`2^(digits - 1) > 10^Digits10`. -/
theorem digits_holds_decimal_digits (D : Nat) (h1 : 1 ≤ D) (h2 : D ≤ 646392577) :
    numeric_limits_digits D
        = ((1000 * D / 301 + (if 1000 * D % 301 ≠ 0 then 2 else 1) : Nat) : Int) ∧
      (10 : ℚ) ^ D < (2 : ℚ) ^ (numeric_limits_digits D - 1) := by
  have hval : numeric_limits_digits D
      = ((1000 * D / 301 + (if 1000 * D % 301 ≠ 0 then 2 else 1) : Nat) : Int) := by
    unfold numeric_limits_digits
    rw [int_cast_of_range]
    · push_cast
      split_ifs <;> omega
    · split_ifs <;> omega
    · split_ifs <;> omega
  refine ⟨hval, ?_⟩
  rw [hval]
  have hk : 1000 * D ≤ 301 * (1000 * D / 301 + (if 1000 * D % 301 ≠ 0 then 2 else 1) - 1) := by
    split_ifs <;> omega
  have hnat := ten_pow_lt_two_pow D _ h1 hk
  have hpos : 1 ≤ 1000 * D / 301 + (if 1000 * D % 301 ≠ 0 then 2 else 1) := by
    split_ifs <;> omega
  have hexp : (((1000 * D / 301 + (if 1000 * D % 301 ≠ 0 then 2 else 1) : Nat) : Int) - 1)
      = ((1000 * D / 301 + (if 1000 * D % 301 ≠ 0 then 2 else 1) - 1 : Nat) : Int) := by
    omega
  rw [hexp, zpow_natCast]
  exact_mod_cast hnat

/-- Witness of C25 as amended: `Digits10 = 50` gives 168 bits, and
`2^167 > 10^50`. -/
theorem digits_holds_decimal_digits_witness :
    numeric_limits_digits 50 = 168 ∧
      (10 : ℚ) ^ (50 : Nat) < (2 : ℚ) ^ (numeric_limits_digits 50 - 1) :=
  ⟨by decide, (digits_holds_decimal_digits 50 (by decide) (by decide)).2⟩

/-- C26, the code at a failing input: for `Digits10 = 4062` the header reports
`digits = 13497` and `max_digits10 = 4064`, but `10^4063 < 2^13497`: 4064
decimal digits do not tell all 13497-bit values apart. -/
theorem max_digits10_too_small :
    numeric_limits_digits 4062 = 13497 ∧
      numeric_limits_max_digits10 4062 = 4064 ∧
      ¬ ((2 : Nat) ^ 13497 < 10 ^ (4064 - 1)) := by
  refine ⟨by decide, by decide, ?_⟩
  norm_num

/-! ## Addition and subtraction of a `long` -/

/-- A non-negative `long` converts to `unsigned long` unchanged. -/
theorem ulong_of_nonneg (i : Int) (h0 : 0 ≤ i) (h1 : i < 2 ^ 63) :
    ((ulong_of_long i : Nat) : ℚ) = (i : ℚ) := by
  have h : ((ulong_of_long i : Nat) : Int) = i := by
    unfold ulong_of_long
    omega
  exact_mod_cast h

/-- The negation of a negative `long`, wrapped into `long` and converted to
`unsigned long`, is its magnitude, also for the least `long`. -/
theorem ulong_of_neg (i : Int) (h0 : -2 ^ 63 ≤ i) (h1 : i ≤ 0) :
    ((ulong_of_long (long_wrap (-i)) : Nat) : ℚ) = -(i : ℚ) := by
  have h : ((ulong_of_long (long_wrap (-i)) : Nat) : Int) = -i := by
    unfold ulong_of_long long_wrap
    omega
  exact_mod_cast h

theorem ulong_of_abs (i : Int) (h0 : -2 ^ 63 ≤ i) (h1 : i ≤ 0) :
    ((ulong_of_long (long_wrap |i|) : Nat) : ℚ) = -(i : ℚ) := by
  rw [abs_of_nonpos h1]
  exact ulong_of_neg i h0 h1

/-- C27: for every `long` `i`, the least one included, and every finite
operand, each `long` overload of `eval_add` and `eval_subtract` (the
two-argument forms and the three-argument forms with the integer on either
side) stores the exact sum or difference rounded once to nearest, for a
rounding that is symmetric under negation and leaves its own results
unchanged. -/
theorem long_add_subtract_rounded_once (rnd : ℚ → ℚ)
    (hsym : ∀ q, rnd (-q) = -rnd q) (hidem : ∀ q, rnd (rnd q) = rnd q)
    (i : Int) (hlo : -2 ^ 63 ≤ i) (hhi : i < 2 ^ 63) (x : ℚ) :
    eval_add_long rnd x i = rnd (x + i) ∧
      eval_subtract_long rnd x i = rnd (x - i) ∧
      eval_add_float_long rnd x i = rnd (x + i) ∧
      eval_add_long_float rnd i x = rnd (i + x) ∧
      eval_subtract_float_long rnd x i = rnd (x - i) ∧
      eval_subtract_long_float rnd i x = rnd (i - x) := by
  by_cases hpos : 0 < i
  · have hn : ¬ i < 0 := by omega
    have hu := ulong_of_nonneg i hpos.le hhi
    refine ⟨?_, ?_, ?_, ?_, ?_, ?_⟩
    all_goals
      simp only [eval_add_long, eval_subtract_long, eval_add_float_long, eval_add_long_float,
        eval_subtract_float_long, eval_subtract_long_float, gt_iff_lt, hpos, hn, if_true,
        if_false, mpfr_add_ui, mpfr_sub_ui, mpfr_ui_sub, hu]
    rw [add_comm]
  · have hle : i ≤ 0 := by omega
    have ha := ulong_of_abs i hlo hle
    by_cases hneg : i < 0
    · have hu := ulong_of_neg i hlo hle
      simp only [eval_add_long, eval_subtract_long, eval_add_float_long, eval_add_long_float,
        eval_subtract_float_long, eval_subtract_long_float, gt_iff_lt, hpos, hneg, if_true,
        if_false, mpfr_add_ui, mpfr_sub_ui, mpfr_ui_sub, mpfr_neg, hu, ha]
      refine ⟨?_, ?_, ?_, ?_, ?_, ?_⟩
      · congr 1; ring
      · congr 1; ring
      · congr 1; ring
      · rw [hsym, hidem, ← hsym]; congr 1; ring
      · congr 1; ring
      · rw [hsym, hidem, ← hsym]; congr 1; ring
    · have hz : i = 0 := by omega
      subst hz
      have hu := ulong_of_nonneg 0 le_rfl (by norm_num)
      simp only [eval_add_long, eval_subtract_long, eval_add_float_long, eval_add_long_float,
        eval_subtract_float_long, eval_subtract_long_float, gt_iff_lt, hpos, hneg, if_false,
        mpfr_add_ui, mpfr_sub_ui, mpfr_ui_sub, hu, ha]
      refine ⟨?_, ?_, ?_, ?_, ?_, ?_⟩ <;> congr 1 <;> simp

/-- Witness of C27: with exact arithmetic (a precision that holds every
result), adding the least `long` to 1/2 and subtracting 3 from it. -/
theorem long_add_subtract_rounded_once_witness :
    eval_add_long_float id (-2 ^ 63) (1 / 2) = -2 ^ 63 + 1 / 2 ∧
      eval_subtract_long id (1 / 2) 3 = 1 / 2 - 3 := by
  have h1 := long_add_subtract_rounded_once id (fun _ => rfl) (fun _ => rfl) (-2 ^ 63)
    (by norm_num) (by norm_num) (1 / 2)
  have h2 := long_add_subtract_rounded_once id (fun _ => rfl) (fun _ => rfl) 3
    (by norm_num) (by norm_num) (1 / 2)
  refine ⟨?_, ?_⟩
  · have := h1.2.2.2.1
    simpa using this
  · have := h2.2.1
    simpa using this

/-! ## The sign of the digit string -/

theorem round_up_scan_cons (c : Char) (ps : List Char) (i : Nat) (fuel : Nat) :
    round_up_scan (c :: ps) (i + 1) fuel = round_up_scan ps i fuel := by
  induction fuel with
  | zero => rfl
  | succ k ih =>
    have h : cstr_at (c :: ps) (i + 1) = cstr_at ps i := by simp [cstr_at]
    simp only [round_up_scan, h, ih]

/-- C24: for an engine that is sign-symmetric on a regular number (the
extraction of `-m` is '-' followed by the extraction of `m`, which has no
sign, with the same exponent), rendering `-m` goes down the same path as
rendering `m`, makes the same engine calls, and hands the formatter the same
exponent and the digit string of `m` with '-' before it, the single digits
"-1" and "-0" included; where rendering `m` does not return, neither does
rendering `-m`. -/
theorem negated_rendering (get_str : mpfr_t → Nat → List Char × Int) (mant : ℕ+) (exp : Int)
    (digits : Int) (f : fmtflags) (fuel : Nat)
    (hsym : ∀ n, get_str (.regular true mant exp) n
      = ('-' :: (get_str (.regular false mant exp) n).1, (get_str (.regular false mant exp) n).2))
    (hpos : ∀ n, cstr_at (get_str (.regular false mant exp) n).1 0 ≠ '-') :
    str_body get_str (.regular true mant exp) digits f fuel =
      (str_body get_str (.regular false mant exp) digits f fuel).map
        (fun cr => (cr.1, minus_sign cr.2)) := by
  have hneg : ∀ ps : List Char, cstr_at ('-' :: ps) 0 = '-' := fun ps => rfl
  have hshift : ∀ ps : List Char, cstr_at ('-' :: ps) 1 = cstr_at ps 0 := fun ps => rfl
  have hstore : ∀ (ps : List Char) (c : Char),
      cstr_store ('-' :: ps) 1 c = '-' :: cstr_store ps 0 c := fun ps c => by
    simp [cstr_store]
  simp only [str_body, mpfr_inf_p, mpfr_nan_p, mpfr_zero_p, Bool.false_eq_true, if_false,
    hsym, hneg, hpos, if_true]
  generalize (if (f.scientific && digits != 0) = true then digits + 1 else digits) = d
  generalize (get_str (.regular false mant exp) (size_t_cast d)).2 - 1 = e
  by_cases c1 : (f.fixed && e != -1) = true
  · rw [if_pos c1, if_pos c1]
    by_cases c2 : (d + (e + 1) == 0) = true
    · rw [if_pos c2, if_pos c2]
      simp only [round_up_scan_cons, hstore, hshift]
      by_cases c3 : cstr_at (get_str (.regular false mant exp) 0).1 0 > '5'
      · rw [if_pos c3, if_pos c3]
        rfl
      · rw [if_neg c3, if_neg c3]
        by_cases c4 : cstr_at (get_str (.regular false mant exp) 0).1 0 = '5'
        · rw [if_pos c4, if_pos c4]
          cases round_up_scan (get_str (.regular false mant exp) 0).1 (0 + 1) fuel with
          | none => rfl
          | some b => cases b <;> rfl
        · rw [if_neg c4, if_neg c4]
          rfl
    · rw [if_neg c2, if_neg c2]
      by_cases c5 : d + (e + 1) > 0
      · rw [if_pos c5, if_pos c5]
        rfl
      · rw [if_neg c5, if_neg c5]
        simp only [hstore]
        rfl
  · rw [if_neg c1, if_neg c1]
    rfl

theorem digitChar_ne_minus (k : Nat) (hk : k < 10) : Nat.digitChar k ≠ '-' := by
  interval_cases k <;> decide

theorem toDigitsCore_no_minus (fuel : Nat) :
    ∀ (n : Nat) (ds : List Char), (∀ c ∈ ds, c ≠ '-') →
      ∀ c ∈ Nat.toDigitsCore 10 fuel n ds, c ≠ '-' := by
  induction fuel with
  | zero =>
    intro n ds hds c hc
    exact hds c (by simpa [Nat.toDigitsCore] using hc)
  | succ k ih =>
    intro n ds hds c hc
    have hd : ∀ x ∈ Nat.digitChar (n % 10) :: ds, x ≠ '-' := by
      intro x hx
      rcases List.mem_cons.mp hx with h | h
      · rw [h]; exact digitChar_ne_minus _ (Nat.mod_lt _ (by norm_num))
      · exact hds x h
    simp only [Nat.toDigitsCore] at hc
    split_ifs at hc
    · exact hd c hc
    · exact ih _ _ hd c hc

/-- The reference engine puts no sign before the digits of a positive number. -/
theorem ref_get_str_unsigned (prec : Nat) (mant : ℕ+) (exp : Int) (n : Nat) :
    cstr_at (ref_get_str prec (.regular false mant exp) n).1 0 ≠ '-' := by
  simp only [ref_get_str, Bool.false_eq_true, if_false, List.nil_append, cstr_at]
  generalize (ref_round ((mant : Nat) * 2 ^ exp.toNat) (2 ^ (-exp).toNat)
    (if n = 0 then ref_ndigits prec else n)).1 = k
  have h := toDigitsCore_no_minus (k + 1) k [] (by simp)
  cases hl : Nat.toDigits 10 k with
  | nil => simp [NUL]
  | cons a t =>
    have ha : a ∈ Nat.toDigitsCore 10 (k + 1) k [] := by
      have : Nat.toDigits 10 k = Nat.toDigitsCore 10 (k + 1) k [] := rfl
      rw [← this, hl]
      exact List.mem_cons_self _ _
    simpa using h a ha

/-- Witness of C24: with the reference engine, -7/1024 at two fixed digits is
handed on as "-1" with exponent -2, and -2^-14 as "-0" with exponent -5. -/
theorem negated_rendering_witness :
    str_body (ref_get_str 53) (.regular true 7 (-10)) 2 fixed_only 1 =
        some ([2, 0], .formatted "-1" (-2) 2 fixed_only false) ∧
      str_body (ref_get_str 53) (.regular true 1 (-14)) 2 fixed_only 1 =
        some ([2, 1], .formatted "-0" (-5) 2 fixed_only false) :=
  ⟨(negated_rendering (ref_get_str 53) 7 (-10) 2 fixed_only 1 (fun _ => rfl)
      (ref_get_str_unsigned 53 7 (-10))).trans (by decide),
    (negated_rendering (ref_get_str 53) 1 (-14) 2 fixed_only 1 (fun _ => rfl)
      (ref_get_str_unsigned 53 1 (-14))).trans (by decide)⟩

end MpfrStr
